import Mathlib

/-!
# Decoder of decrypted Telegram Desktop cache records (`tdata/decrypted/parse.go`)

A shallow embedding of the Go package `decrypted`: the byte reader, the
`unpack` helper, the reflective field decoder `parseField`, the partial
connection-type parser, the settings-entry decoder and the dispatcher
`ParseCache`, followed by theorems about them.

Conventions of the embedding

* A `*bytes.Reader` is represented by its unread suffix `s[i:]`; advancing the
  cursor by `k` bytes is dropping `k` bytes from that list.
* A Go call either returns or panics (`Go`).  Errors are ordinary return
  values (`Option Error`, `none` being `nil`).
* `parseField` mutates the field it is given.  Every call site of the source
  passes a freshly zeroed value, so the embedding returns the state of the
  field after the call; a field that was never set holds the zero value of its
  type (`zeroValue`), and a `nil` slice (`Value.nil`) is kept apart from an
  empty one.
* `struc.Unpack` is called without options: integers are read big-endian (the
  library default; this is the byte order of Qt's `QDataStream`), one
  `io.ReadFull` per struct field.  The two `FullLen` prefixes are read with
  `binary.Read(r, binary.LittleEndian, ...)`.
* Type declarations and registries that live in other files of the package
  (`LSK`, `DBI`, `UserSetting`, `Location`, the `qt` adapters) are the fields
  of `Env`.
* Memory is unbounded: `make([]byte, len)` always succeeds.
-/

namespace Decrypted

/-! ## Bytes, integers, errors -/

/-- One byte. -/
abbrev Byte := Fin 256

/-- Unsigned value of a byte string under `binary.BigEndian`. -/
def bigEndian (bs : List Byte) : Nat :=
  bs.foldl (fun acc b => acc * 256 + b.val) 0

/-- Unsigned value of a byte string under `binary.LittleEndian`. -/
def littleEndian : List Byte → Nat
  | [] => 0
  | b :: bs => b.val + 256 * littleEndian bs

/-- Two's complement reading of an unsigned `bits`-bit pattern. -/
def toSigned (bits : Nat) (n : Nat) : Int :=
  if n % 2 ^ bits < 2 ^ (bits - 1) then ((n % 2 ^ bits : Nat) : Int)
  else ((n % 2 ^ bits : Nat) : Int) - ((2 ^ bits : Nat) : Int)

/-- The `int32` held in four bytes read by `unpack`. -/
def int32 (bs : List Byte) : Int := toSigned 32 (bigEndian bs)

/-- Error values the package returns. -/
inductive Error where
  /-- The value `io.EOF`. -/
  | EOF
  /-- The value `io.ErrUnexpectedEOF`. -/
  | ErrUnexpectedEOF
  /-- The error `errors.New("not implemented")`. -/
  | notImplemented
  /-- The error `fmt.Errorf("blockID not found: 0x%x", blockID)`. -/
  | blockIDNotFound (blockID : Nat)
  /-- The error `fmt.Errorf("failed to parse connection type: %w", err)`. -/
  | failedConnectionType (err : Error)
  /-- The error `fmt.Errorf("error: %v: %v", fieldName, err)`. -/
  | field (fieldName : String) (err : Error)
  /-- The error `errors.Wrap(err, "error parsing cache file")`. -/
  | wrap (err : Error)
  /-- Any error produced by `struc` on a record type declared elsewhere. -/
  | struc (msg : String)
  deriving DecidableEq, Repr

/-- Result of `errors.Wrap(err, "error parsing cache file")`: `nil` stays `nil`. -/
def errorsWrap : Option Error → Option Error
  | none => none
  | some e => some (Error.wrap e)

/-- A Go call returns a value or panics. -/
inductive Go (α : Type) where
  | ret (a : α)
  | panic (msg : String)
  deriving DecidableEq, Repr

/-! ## The reader -/

/-- Unread part of a `*bytes.Reader`. -/
abbrev Reader := List Byte

/-- Behaviour of `io.ReadFull(r, buf)` with `len(buf) = n` on a `bytes.Reader`: a buffer of
length zero reads nothing and succeeds; otherwise the reader hands over what it has, and
running short is `io.EOF` when nothing was left and `io.ErrUnexpectedEOF` when something
was, the cursor ending at the end of the data. -/
def readFull (n : Nat) (r : Reader) : Except Error (List Byte) × Reader :=
  if n = 0 then (.ok [], r)
  else if r = [] then (.error Error.EOF, r)
  else if r.length < n then (.error Error.ErrUnexpectedEOF, [])
  else (.ok (r.take n), r.drop n)

/-- The call `unpack(r, &x)` for a fixed-size value `x` of `size` bytes, and `unpack(r, b)` for a
byte slice `b` of length `size`: `struc.Unpack` hands both to `binary.Read`, which does a single
`io.ReadFull` and returns its error unchanged.  The bytes read are returned raw. -/
def unpack (size : Nat) (r : Reader) : Except Error (List Byte) × Reader :=
  readFull size r

/-- The call `unpack(r, &d)` for `d` of type `struct { Date uint64; Time uint32; X [1]byte }`:
`struc` reads the fields in declaration order, one `io.ReadFull` each, and stops at the first
error.  Returns `(d.Date, d.Time, d.X)`. -/
def unpackDate (r : Reader) : Except Error (Nat × Nat × List Byte) × Reader :=
  match readFull 8 r with
  | (.error e, r1) => (.error e, r1)
  | (.ok date, r1) =>
    match readFull 4 r1 with
    | (.error e, r2) => (.error e, r2)
    | (.ok time, r2) =>
      match readFull 1 r2 with
      | (.error e, r3) => (.error e, r3)
      | (.ok x, r3) => (.ok (bigEndian date, bigEndian time, x), r3)

/-- The local variable `header` of `parseConnectionType`. -/
structure Header where
  Count : Int
  Index : Int
  Settings : Int
  Calls : Int
  deriving DecidableEq, Repr

/-- The call `unpack(r, &header)`: four `int32` fields, one `io.ReadFull` each. -/
def unpackHeader (r : Reader) : Except Error Header × Reader :=
  match readFull 4 r with
  | (.error e, r1) => (.error e, r1)
  | (.ok count, r1) =>
    match readFull 4 r1 with
    | (.error e, r2) => (.error e, r2)
    | (.ok index, r2) =>
      match readFull 4 r2 with
      | (.error e, r3) => (.error e, r3)
      | (.ok settings, r3) =>
        match readFull 4 r3 with
        | (.error e, r4) => (.error e, r4)
        | (.ok calls, r4) => (.ok ⟨int32 count, int32 index, int32 settings, int32 calls⟩, r4)

/-! ## Schemas and values -/

/-- Shape of a Go type as `parseField` sees it through `reflect`. -/
inductive Schema where
  /-- The type `time.Time`. -/
  | time
  /-- Any other struct, with its fields in declaration order. -/
  | struct (fields : List (String × Schema))
  /-- A slice type; `[]byte` is `slice (prim 1 false)`. -/
  | slice (elem : Schema)
  /-- The type `string`. -/
  | string
  /-- A fixed-size integer kind of `size` bytes (`uint8` is `prim 1 false`, `int32` is
  `prim 4 true`). -/
  | prim (size : Nat) (signed : Bool)
  deriving Repr

/-- Test `Kind() == reflect.Uint8`. -/
def Schema.isUint8 : Schema → Bool
  | .prim 1 false => true
  | _ => false

/-- The type `[]byte`. -/
abbrev Schema.bytes : Schema := .slice (.prim 1 false)

/-- A `time.Time` instant; `zero` is `time.Time{}`. -/
structure Timestamp where
  sec : Int
  nsec : Int
  deriving DecidableEq, Repr

/-- The value `time.Time{}`. -/
def Timestamp.zero : Timestamp := ⟨0, 0⟩

/-- Go values of the types described by `Schema`. -/
inductive Value where
  | time (t : Timestamp)
  | struct (fields : List (String × Value))
  /-- A `nil` slice. -/
  | nil
  /-- A non-nil `[]byte`. -/
  | bytes (b : List Byte)
  /-- A non-nil slice of another element type. -/
  | slice (elems : List Value)
  | string (s : String)
  | int (n : Int)
  deriving Repr

mutual
/-- Zero value of a type. -/
def zeroValue : Schema → Value
  | .time => .time Timestamp.zero
  | .struct fs => .struct (zeroFields fs)
  | .slice _ => .nil
  | .string => .string ""
  | .prim _ _ => .int 0
/-- Zero values of the fields of a struct. -/
def zeroFields : List (String × Schema) → List (String × Value)
  | [] => []
  | (name, s) :: fs => (name, zeroValue s) :: zeroFields fs
end

/-- The value of an integer of `size` bytes read by `unpack`. -/
def primValue (size : Nat) (signed : Bool) (bs : List Byte) : Int :=
  if signed then toSigned (8 * size) (bigEndian bs) else ((bigEndian bs : Nat) : Int)

/-! ## Declarations taken from the rest of the package -/

/-- Dynamic type of an entry of the registry `LSK`, as far as the type switch of `ParseCache`
tells them apart. -/
inductive LskType where
  | Audios
  | StickerImages
  | Images
  | Locations
  | ReportSpamStatuses
  | UserSettings
  /-- Any registered type that has no case in the switch. -/
  | other
  deriving DecidableEq, Repr

/-- What `parse.go` uses and does not declare. -/
structure Env where
  /-- The adapter `qt.QDateTime(date, time)`. -/
  QDateTime : Nat → Nat → Timestamp
  /-- The adapter `qt.ConvertUtf16(b)`. -/
  ConvertUtf16 : List Byte → String
  /-- The registry `LSK`; `none` for a key that is absent (a nil interface). -/
  LSK : Nat → Option LskType
  /-- The registry `DBI`, from block identifier to field name. -/
  DBI : Nat → Option String
  /-- Fields of the struct type `UserSetting`. -/
  UserSetting : List (String × Schema)
  /-- Fields of the struct type `Location`. -/
  Location : List (String × Schema)
  /-- The call `unpack(r, &result)` on the record types decoded by `struc` alone (`Audios`,
  `StickerImages`, `Images`, `ReportSpamStatuses`): the state of `result` after the call and
  the error returned. -/
  strucUnpack : LskType → List Byte → Value × Option Error

/-! ## The field decoder -/

/-- State after a call `parseField(r, field)` that returned. -/
structure Parsed where
  /-- The returned error. -/
  err : Option Error
  /-- The field after the call. -/
  val : Value
  /-- The reader after the call. -/
  rest : Reader
  deriving Repr

/-- The loop `for i := 0; i < int(len); i++ { parseField(r, slice.Index(i)) }`, where `f` is
`parseField` at the element type: the returned errors are dropped. -/
def parseElems (f : Reader → Go Parsed) : Nat → Reader → Go (List Value × Reader)
  | 0, r => .ret ([], r)
  | n + 1, r =>
    match f r with
    | .panic m => .panic m
    | .ret p =>
      match parseElems f n p.rest with
      | .panic m => .panic m
      | .ret (vs, r2) => .ret (p.val :: vs, r2)

mutual
/-- The function `parseField`. -/
def parseField (E : Env) : Schema → Reader → Go Parsed
  | .time, r =>
    match unpackDate r with
    | (.error err, r1) => .ret ⟨some err, .time Timestamp.zero, r1⟩
    | (.ok (date, time, _), r1) => .ret ⟨none, .time (E.QDateTime date time), r1⟩
  | .struct fs, r =>
    match parseFields E fs r with
    | .panic m => .panic m
    | .ret (vs, r1) => .ret ⟨none, .struct vs, r1⟩
  | .slice elem, r =>
    if elem.isUint8 then
      match unpack 4 r with
      | (.error err, r1) => .ret ⟨some err, .nil, r1⟩
      | (.ok l, r1) =>
        if int32 l < 0 then .ret ⟨none, .bytes [], r1⟩
        else
          match unpack (int32 l).toNat r1 with
          | (.error err, r2) => .ret ⟨some err, .nil, r2⟩
          | (.ok b, r2) => .ret ⟨none, .bytes b, r2⟩
    else
      match unpack 4 r with
      | (.error err, r1) => .ret ⟨some err, .nil, r1⟩
      | (.ok l, r1) =>
        if int32 l < 0 then .panic "reflect.MakeSlice: negative len"
        else
          match parseElems (fun x => parseField E elem x) (int32 l).toNat r1 with
          | .panic m => .panic m
          | .ret (vs, r2) => .ret ⟨none, .slice vs, r2⟩
  | .string, r =>
    match unpack 4 r with
    | (.error err, r1) => .ret ⟨some err, .string "", r1⟩
    | (.ok l, r1) =>
      if int32 l < 0 then .ret ⟨none, .string "", r1⟩
      else
        match unpack (int32 l).toNat r1 with
        | (.error err, r2) => .ret ⟨some err, .string "", r2⟩
        | (.ok b, r2) => .ret ⟨none, .string (E.ConvertUtf16 b), r2⟩
  | .prim size signed, r =>
    match unpack size r with
    | (.error err, r1) => .ret ⟨some err, .int 0, r1⟩
    | (.ok bs, r1) => .ret ⟨none, .int (primValue size signed bs), r1⟩
/-- The loop `for i := 0; i < field.NumField(); i++ { parseField(r, field.Field(i)) }` of the
struct case: the returned errors are dropped. -/
def parseFields (E : Env) : List (String × Schema) → Reader → Go (List (String × Value) × Reader)
  | [], r => .ret ([], r)
  | (name, s) :: fs, r =>
    match parseField E s r with
    | .panic m => .panic m
    | .ret p =>
      match parseFields E fs p.rest with
      | .panic m => .panic m
      | .ret (vs, r2) => .ret ((name, p.val) :: vs, r2)
end


/-! ## The connection type -/

/-- The type `connectionType`, a struct without fields. -/
structure connectionType where
  deriving DecidableEq, Repr

/-- The function `parseConnectionType`: the returned pointer (`none` is `nil`), the returned
error, and the reader after the call. -/
def parseConnectionType (r : Reader) : (Option connectionType × Option Error) × Reader :=
  match unpack 4 r with
  | (.error err, r1) => ((none, some err), r1)
  | (.ok t, r1) =>
    let connType := int32 t
    if connType = 5 then
      match unpackHeader r1 with
      | (.error err, r2) => ((none, some err), r2)
      | (.ok header, r2) =>
        if header.Count > 0 then ((none, some Error.notImplemented), r2)
        else if header.Settings = 0 ∨ header.Settings = 2 then ((some {}, none), r2)
        else if header.Settings = 1 then ((none, some Error.notImplemented), r2)
        else ((some {}, none), r2)
    else ((none, none), r1)

/-! ## Settings entries -/

/-- The dynamic value stored under the field name in the map built by `parseUserSetting`. -/
inductive SettingValue where
  /-- The pointer returned by `parseConnectionType`. -/
  | connectionType (v : Option connectionType)
  /-- The decoded field, `field.Interface()`. -/
  | field (v : Value)
  deriving Repr

/-- A `map[string]interface{}`, as its list of entries; the `nil` map is `[]`. -/
abbrev Setting := List (String × SettingValue)

/-- State after a call of `parseUserSetting` that returned. -/
structure SettingResult where
  /-- The returned map. -/
  setting : Setting
  /-- The returned error. -/
  err : Option Error
  /-- The reader after the call. -/
  rest : Reader
  deriving Repr

/-- The function `parseUserSetting`.  `FieldByName` of a name `UserSetting` does not declare
is the zero `reflect.Value`, on which `parseField` reaches `field.Addr()` and panics. -/
def parseUserSetting (E : Env) (r : Reader) (blockID : Nat) : Go SettingResult :=
  match E.DBI blockID with
  | none => .ret ⟨[], some (Error.blockIDNotFound blockID), r⟩
  | some fieldName =>
    if fieldName = "DbiConnectionType" then
      match parseConnectionType r with
      | ((_, some err), r1) => .ret ⟨[], some (Error.failedConnectionType err), r1⟩
      | ((v, none), r1) => .ret ⟨[(fieldName, .connectionType v)], none, r1⟩
    else
      match E.UserSetting.lookup fieldName with
      | none => .panic "reflect: call of reflect.Value.Addr on zero Value"
      | some s =>
        match parseField E s r with
        | .panic m => .panic m
        | .ret p =>
          match p.err with
          | some err => .ret ⟨[], some (Error.field fieldName err), p.rest⟩
          | none => .ret ⟨[(fieldName, .field p.val)], none, p.rest⟩

/-! ## The dispatcher -/

/-- A Go `[]byte` argument: the backing array from the first element of the slice on, whose
length is the capacity, and the length of the slice. -/
structure GoBytes where
  array : List Byte
  len : Nat
  le : len ≤ array.length

/-- The elements of the slice. -/
def GoBytes.bytes (data : GoBytes) : List Byte := data.array.take data.len

/-- The capacity `cap(data)`. -/
def GoBytes.cap (data : GoBytes) : Nat := data.array.length

/-- A slice that fills its backing array. -/
def GoBytes.ofList (bs : List Byte) : GoBytes := ⟨bs, bs.length, Nat.le_refl _⟩

/-- Selector `v.name` on a struct value. -/
def Value.field (v : Value) (name : String) : Option Value :=
  match v with
  | .struct fs => fs.lookup name
  | _ => none

/-- Selector `v.name` on a struct value, for an integer field. -/
def Value.intField (v : Value) (name : String) : Option Int :=
  match v.field name with
  | some (.int n) => some n
  | _ => none

/-- The builtin `len` on strings and slices. -/
def Value.len : Value → Option Nat
  | .string s => some s.utf8ByteSize
  | .nil => some 0
  | .bytes b => some b.length
  | .slice vs => some vs.length
  | _ => none

/-- The end mark test of the `Locations` loop:
`location.MediaKey.LocationType == 0 && location.MediaKey.DC == 0 && location.MediaKey.ID == 0
&& len(location.Filename) == 0 && location.Size == 0`.  It is `false` on a value that lacks one
of the fields, which the Go type checker excludes. -/
def isEndmark (location : Value) : Bool :=
  match location.field "MediaKey" with
  | none => false
  | some mediaKey =>
    mediaKey.intField "LocationType" == some 0 &&
    mediaKey.intField "DC" == some 0 &&
    mediaKey.intField "ID" == some 0 &&
    (location.field "Filename").bind Value.len == some 0 &&
    location.intField "Size" == some 0

/-- The value returned by `ParseCache`. -/
inductive CacheResult where
  /-- A value of type `Audios`, `StickerImages`, `Images` or `ReportSpamStatuses`. -/
  | record (t : LskType) (v : Value)
  /-- A value of type `Locations`; a nil list and an empty one are both `[]`. -/
  | locations (FullLen : Nat) (Locations : List Value)
  /-- A value of type `UserSettings`; a nil list and an empty one are both `[]`. -/
  | userSettings (FullLen : Nat) (Settings : List Setting)
  /-- The value `struct{}{}`. -/
  | empty
  deriving Repr

/-- The `for` loop of the `Locations` case, run for at most `fuel` iterations (`none` when the
loop is still running after that): the final `result.Locations` and the returned error. -/
def locationsLoop (E : Env) : Nat → Reader → List Value → Option (Go (List Value × Option Error))
  | 0, _, _ => none
  | fuel + 1, r, locations =>
    match parseField E (.struct E.Location) r with
    | .panic m => some (.panic m)
    | .ret p =>
      if p.err = some Error.ErrUnexpectedEOF ∨ p.err = some Error.EOF then
        some (.ret (locations, none))
      else if p.err ≠ none then some (.ret (locations, errorsWrap p.err))
      else if isEndmark p.val then some (.ret (locations, none))
      else locationsLoop E fuel p.rest (locations ++ [p.val])

/-- The `for` loop of the `UserSettings` case, run for at most `fuel` iterations (`none` when
the loop is still running after that): the final `result.Settings` and the returned error. -/
def settingsLoop (E : Env) : Nat → Reader → List Setting → Option (Go (List Setting × Option Error))
  | 0, _, _ => none
  | fuel + 1, r, settings =>
    match unpack 4 r with
    | (.error err, _) =>
      if err = Error.EOF then some (.ret (settings, none))
      else some (.ret (settings, errorsWrap (some err)))
    | (.ok blockID, r1) =>
      match parseUserSetting E r1 (bigEndian blockID) with
      | .panic m => some (.panic m)
      | .ret res =>
        match res.err with
        | some err => some (.ret (settings, errorsWrap (some err)))
        | none => settingsLoop E fuel res.rest (settings ++ [res.setting])

/-- The function `ParseCache`.  Both loops get one iteration more than there are bytes to read;
`none` means that the loop is still running then. -/
def ParseCache (E : Env) (data : GoBytes) (keytype : Nat) :
    Option (Go (CacheResult × Option Error)) :=
  let r : Reader := data.bytes
  match E.LSK keytype with
  | some .Audios =>
    let res := E.strucUnpack .Audios r
    some (.ret (.record .Audios res.1, errorsWrap res.2))
  | some .StickerImages =>
    let res := E.strucUnpack .StickerImages r
    some (.ret (.record .StickerImages res.1, errorsWrap res.2))
  | some .Images =>
    let res := E.strucUnpack .Images r
    some (.ret (.record .Images res.1, errorsWrap res.2))
  | some .Locations =>
    match readFull 4 r with
    | (.error err, _) => some (.ret (.locations 0 [], errorsWrap (some err)))
    | (.ok fullLen, r1) =>
      match locationsLoop E (r1.length + 1) r1 [] with
      | none => none
      | some (.panic m) => some (.panic m)
      | some (.ret (locations, err)) =>
        some (.ret (.locations (littleEndian fullLen) locations, err))
  | some .ReportSpamStatuses =>
    let res := E.strucUnpack .ReportSpamStatuses r
    some (.ret (.record .ReportSpamStatuses res.1, errorsWrap res.2))
  | some .UserSettings =>
    match readFull 4 r with
    | (.error err, _) => some (.ret (.userSettings 0 [], errorsWrap (some err)))
    | (.ok fullLen, _) =>
      let FullLen := littleEndian fullLen
      if 4 ≤ FullLen ∧ FullLen ≤ data.cap then
        let r : Reader := (data.array.take FullLen).drop 4
        match settingsLoop E (r.length + 1) r [] with
        | none => none
        | some (.panic m) => some (.panic m)
        | some (.ret (settings, err)) => some (.ret (.userSettings FullLen settings, err))
      else some (.panic "runtime error: slice bounds out of range")
  | _ => some (.ret (.empty, none))

/-! ## The wire format

What a writer of the format puts on the wire for a value of each shape (section 4.2 of the
specification), and the value a reader is to get back.  These definitions follow the format,
not `parseField`; the theorems below compare the two. -/

/-- Four bytes holding `n` modulo `2 ^ 32`, most significant byte first. -/
def putUint32 (n : Nat) : List Byte :=
  [Fin.ofNat (n / 16777216), Fin.ofNat (n / 65536), Fin.ofNat (n / 256), Fin.ofNat n]

/-- Content of one encoded field. -/
inductive Wire where
  /-- A timestamp: eight bytes of date, four bytes of time, one reserved byte. -/
  | time (date time : List Byte) (x : Byte)
  /-- A nested record: its fields in declaration order. -/
  | struct (fields : List Wire)
  /-- A byte array or a text: the length of the payload, then the payload. -/
  | payload (b : List Byte)
  /-- A byte array or a text written as a negative length and nothing else. -/
  | empty (len : List Byte)
  /-- A list: the number of elements, then the elements. -/
  | list (elems : List Wire)
  /-- A scalar: its bytes. -/
  | int (bs : List Byte)
  deriving Repr

mutual
/-- Bytes of an encoded field. -/
def Wire.encode : Wire → List Byte
  | .time date time x => date ++ (time ++ [x])
  | .struct ws => encodeAll ws
  | .payload b => putUint32 b.length ++ b
  | .empty len => len
  | .list ws => putUint32 ws.length ++ encodeAll ws
  | .int bs => bs
/-- Bytes of a sequence of encoded fields. -/
def encodeAll : List Wire → List Byte
  | [] => []
  | w :: ws => w.encode ++ encodeAll ws
end

mutual
/-- Whether an encoded field is a well-formed field of the given shape. -/
def Wire.conforms : Schema → Wire → Bool
  | .time, .time date time _ => decide (date.length = 8) && decide (time.length = 4)
  | .struct fs, .struct ws => conformsFields fs ws
  | .slice elem, .payload b => elem.isUint8 && decide (b.length < 2147483648)
  | .slice elem, .empty len => elem.isUint8 && decide (len.length = 4) && decide (int32 len < 0)
  | .slice elem, .list ws =>
    !elem.isUint8 && decide (ws.length < 2147483648) && conformsAll elem ws
  | .string, .payload b => decide (b.length < 2147483648)
  | .string, .empty len => decide (len.length = 4) && decide (int32 len < 0)
  | .prim size _, .int bs => decide (bs.length = size)
  | _, _ => false
/-- Whether encoded fields are well-formed fields of a record, one for one. -/
def conformsFields : List (String × Schema) → List Wire → Bool
  | [], [] => true
  | (_, s) :: fs, w :: ws => w.conforms s && conformsFields fs ws
  | _, _ => false
/-- Whether encoded fields are all well-formed elements of the given shape. -/
def conformsAll (elem : Schema) : List Wire → Bool
  | [] => true
  | w :: ws => w.conforms elem && conformsAll elem ws
end

mutual
/-- The value an encoded field of the given shape stands for. -/
def Wire.value (E : Env) : Schema → Wire → Value
  | .time, .time date time _ => .time (E.QDateTime (bigEndian date) (bigEndian time))
  | .struct fs, .struct ws => .struct (valueFields E fs ws)
  | .slice _, .payload b => .bytes b
  | .slice _, .empty _ => .bytes []
  | .slice elem, .list ws => .slice (valueAll E elem ws)
  | .string, .payload b => .string (E.ConvertUtf16 b)
  | .string, .empty _ => .string ""
  | .prim size signed, .int bs => .int (primValue size signed bs)
  | _, _ => .nil
/-- The values the encoded fields of a record stand for. -/
def valueFields (E : Env) : List (String × Schema) → List Wire → List (String × Value)
  | (name, s) :: fs, w :: ws => (name, w.value E s) :: valueFields E fs ws
  | _, _ => []
/-- The values the encoded elements of a list stand for. -/
def valueAll (E : Env) (elem : Schema) : List Wire → List Value
  | [] => []
  | w :: ws => w.value E elem :: valueAll E elem ws
end

/-- One settings entry as a writer puts it: the four bytes of the block identifier, and the
encoded value of the field that the identifier names. -/
structure Entry where
  blockID : List Byte
  fieldName : String
  schema : Schema
  value : Wire
  deriving Repr

/-- Bytes of a settings entry. -/
def Entry.encode (e : Entry) : List Byte := e.blockID ++ e.value.encode

/-- Bytes of a sequence of settings entries. -/
def encodeEntries : List Entry → List Byte
  | [] => []
  | e :: es => e.encode ++ encodeEntries es

/-- A well-formed entry: the identifier is registered in `DBI` under the name of a field of
`UserSetting` that is decoded by `parseField`, and the value is a well-formed value of the type
of that field. -/
def Entry.wellFormed (E : Env) (e : Entry) : Prop :=
  e.blockID.length = 4 ∧
  E.DBI (bigEndian e.blockID) = some e.fieldName ∧
  e.fieldName ≠ "DbiConnectionType" ∧
  E.UserSetting.lookup e.fieldName = some e.schema ∧
  e.value.conforms e.schema = true

/-- The pair of field name and value that an entry stands for. -/
def Entry.setting (E : Env) (e : Entry) : Setting :=
  [(e.fieldName, SettingValue.field (e.value.value E e.schema))]

mutual
/-- Whether a type has no slice of elements other than bytes, the one shape on which
`parseField` calls `reflect.MakeSlice`. -/
def Schema.noList : Schema → Bool
  | .time => true
  | .struct fs => noListFields fs
  | .slice elem => elem.isUint8
  | .string => true
  | .prim _ _ => true
/-- Whether no field of a struct has a slice of elements other than bytes. -/
def noListFields : List (String × Schema) → Bool
  | [] => true
  | (_, s) :: fs => s.noList && noListFields fs
end

/-! ## A sample environment

Concrete registries and adapters for the scenarios of section 8 of the specification. -/

/-- Modelled from the spec: the adapter `qt.ConvertUtf16` (section 6), which is not in
`parse.go`.  Every two bytes are one code unit, most significant byte first, taken as a code
point; a trailing odd byte is dropped. -/
def sampleConvertUtf16 : List Byte → String
  | hi :: lo :: bs =>
    String.mk (Char.ofNat (hi.val * 256 + lo.val) :: (sampleConvertUtf16 bs).data)
  | _ => ""

/-- Modelled from the spec: the registries `LSK` and `DBI`, the adapters and the types
`UserSetting` and `Location`, none of which is in `parse.go`.  A `Location` carries a media key
(location type, datacenter, identifier), a file name and a size (section 3); `DbiAutoStart` is
an integer field and `DbiLangFile` a text field of `UserSetting`. -/
def sampleEnv : Env where
  QDateTime := fun date time => ⟨date, time⟩
  ConvertUtf16 := sampleConvertUtf16
  LSK := fun keytype =>
    if keytype = 3 then some .Images
    else if keytype = 4 then some .Locations
    else if keytype = 5 then some .StickerImages
    else if keytype = 6 then some .Audios
    else if keytype = 9 then some .UserSettings
    else none
  DBI := fun blockID =>
    if blockID = 6 then some "DbiAutoStart"
    else if blockID = 30 then some "DbiLangFile"
    else if blockID = 79 then some "DbiConnectionType"
    else none
  UserSetting := [("DbiAutoStart", .prim 4 true), ("DbiLangFile", .string)]
  Location :=
    [("MediaKey", .struct [("LocationType", .prim 4 false), ("DC", .prim 4 true),
        ("ID", .prim 8 false)]),
     ("Filename", .string),
     ("Size", .prim 4 false)]
  strucUnpack := fun _ _ => (.nil, some (Error.struc "record type not declared"))

/-! ## Facts about the reader -/

theorem readFull_ok (n : Nat) (r : Reader) (h : n ≤ r.length) :
    readFull n r = (.ok (r.take n), r.drop n) := by
  unfold readFull
  by_cases hn : n = 0
  · subst hn; simp
  · have hr : r ≠ [] := by
      intro h0; subst h0; simp at h; exact hn h
    simp [hn, hr, Nat.not_lt.mpr h]

theorem readFull_append (bs rest : List Byte) :
    readFull bs.length (bs ++ rest) = (.ok bs, rest) := by
  rw [readFull_ok _ _ (by simp)]
  simp

theorem readFull_append_of_length {n : Nat} (bs rest : List Byte) (h : bs.length = n) :
    readFull n (bs ++ rest) = (.ok bs, rest) := by
  subst h; exact readFull_append bs rest

theorem readFull_nil (n : Nat) (h : n ≠ 0) : readFull n [] = (.error Error.EOF, []) := by
  simp [readFull, h]

theorem readFull_short (n : Nat) (r : Reader) (h : r.length < n) :
    readFull n r = (.error (if r = [] then Error.EOF else Error.ErrUnexpectedEOF), []) := by
  unfold readFull
  have hn : n ≠ 0 := by omega
  by_cases hr : r = []
  · subst hr; simp [hn]
  · simp [hn, hr, h]

theorem putUint32_length (n : Nat) : (putUint32 n).length = 4 := rfl

theorem bigEndian_putUint32 (n : Nat) : bigEndian (putUint32 n) = n % 4294967296 := by
  simp only [bigEndian, putUint32, List.foldl, Fin.ofNat, Fin.val_mk]
  omega

theorem int32_putUint32 (n : Nat) (h : n < 2147483648) : int32 (putUint32 n) = (n : Int) := by
  unfold int32 toSigned
  rw [bigEndian_putUint32]
  have h1 : n % 4294967296 % 2 ^ 32 = n := by omega
  rw [h1]
  have h2 : n < 2 ^ (32 - 1) := by omega
  rw [if_pos h2]

/-! ## Length-prefixed fields -/

/-- C1: when the next four bytes of the reader decode to a negative `int32`, `parseField`
on a `string` field and on a `[]byte` field returns `nil`, leaves the field set to `""` and to
the empty byte slice, and leaves the reader exactly four bytes further, whatever follows. -/
theorem parseField_negative_length (E : Env) (r : Reader) (h4 : 4 ≤ r.length)
    (hneg : int32 (r.take 4) < 0) :
    parseField E Schema.string r = Go.ret ⟨none, Value.string "", r.drop 4⟩ ∧
    parseField E Schema.bytes r = Go.ret ⟨none, Value.bytes [], r.drop 4⟩ := by
  constructor
  · simp [parseField, unpack, readFull_ok 4 r h4, hneg]
  · simp [parseField, Schema.isUint8, unpack, readFull_ok 4 r h4, hneg]

/-- Witness of C1 on the prefix `ff ff ff ff` followed by two more bytes. -/
theorem parseField_negative_length_witness :
    parseField sampleEnv Schema.string [255, 255, 255, 255, 7, 9] =
        Go.ret ⟨none, Value.string "", [7, 9]⟩ ∧
    parseField sampleEnv Schema.bytes [255, 255, 255, 255, 7, 9] =
        Go.ret ⟨none, Value.bytes [], [7, 9]⟩ :=
  parseField_negative_length sampleEnv [255, 255, 255, 255, 7, 9] (by decide) (by decide)

/-- C2: when the next four bytes decode to a length `n ≥ 0`, `parseField` on a `[]byte` field
and on a `string` field reads the `n` bytes after the prefix, sets the field to them (to
`ConvertUtf16` of them for a string) and leaves the reader `4 + n` bytes further, provided
`n` bytes follow the prefix; when fewer follow it returns `io.EOF` (nothing follows) or
`io.ErrUnexpectedEOF` and the field keeps its zero value. -/
theorem parseField_length_prefixed (E : Env) (r : Reader) (h4 : 4 ≤ r.length)
    (hn : 0 ≤ int32 (r.take 4)) :
    parseField E Schema.bytes r =
      (if (int32 (r.take 4)).toNat ≤ (r.drop 4).length then
        Go.ret ⟨none, Value.bytes ((r.drop 4).take (int32 (r.take 4)).toNat),
          r.drop (4 + (int32 (r.take 4)).toNat)⟩
      else
        Go.ret ⟨some (if r.drop 4 = [] then Error.EOF else Error.ErrUnexpectedEOF),
          zeroValue Schema.bytes, []⟩) ∧
    parseField E Schema.string r =
      (if (int32 (r.take 4)).toNat ≤ (r.drop 4).length then
        Go.ret ⟨none, Value.string (E.ConvertUtf16 ((r.drop 4).take (int32 (r.take 4)).toNat)),
          r.drop (4 + (int32 (r.take 4)).toNat)⟩
      else
        Go.ret ⟨some (if r.drop 4 = [] then Error.EOF else Error.ErrUnexpectedEOF),
          zeroValue Schema.string, []⟩) := by
  have hneg : ¬ int32 (r.take 4) < 0 := Int.not_lt.mpr hn
  have hadd : ∀ k : Nat, List.drop (4 + k) r = List.drop k (List.drop 4 r) := by
    intro k; rw [List.drop_drop]
  by_cases hle : (int32 (r.take 4)).toNat ≤ (r.drop 4).length
  · rw [if_pos hle, if_pos hle]
    constructor
    · simp only [parseField, Schema.isUint8, unpack, readFull_ok 4 r h4, hneg,
        readFull_ok _ _ hle, hadd, if_true, if_false]
    · simp only [parseField, unpack, readFull_ok 4 r h4, hneg, readFull_ok _ _ hle, hadd,
        if_false]
  · rw [if_neg hle, if_neg hle]
    have hlt := Nat.lt_of_not_le hle
    constructor
    · simp only [parseField, Schema.isUint8, unpack, readFull_ok 4 r h4, hneg, if_true, if_false]
      rw [readFull_short _ _ hlt]
      rfl
    · simp only [parseField, unpack, readFull_ok 4 r h4, hneg, if_false]
      rw [readFull_short _ _ hlt]
      rfl

/-- Witness of C2 on the prefix `00 00 00 02` followed by three bytes. -/
theorem parseField_length_prefixed_witness :
    parseField sampleEnv Schema.bytes [0, 0, 0, 2, 0, 65, 9] =
      Go.ret ⟨none, Value.bytes [0, 65], [9]⟩ ∧
    parseField sampleEnv Schema.string [0, 0, 0, 2, 0, 65, 9] =
      Go.ret ⟨none, Value.string "A", [9]⟩ :=
  parseField_length_prefixed sampleEnv [0, 0, 0, 2, 0, 65, 9] (by decide) (by decide)

/-! ## Decoding what a writer wrote -/

theorem unpackDate_append (date time : List Byte) (x : Byte) (rest : List Byte)
    (hd : date.length = 8) (ht : time.length = 4) :
    unpackDate (date ++ (time ++ (x :: rest))) =
      (.ok (bigEndian date, bigEndian time, [x]), rest) := by
  unfold unpackDate
  rw [readFull_append_of_length date _ hd]
  simp only
  rw [readFull_append_of_length time _ ht]
  simp only
  rw [readFull_ok 1 (x :: rest) (by simp)]
  simp

theorem readFull_putUint32 (n : Nat) (rest : List Byte) :
    readFull 4 (putUint32 n ++ rest) = (.ok (putUint32 n), rest) :=
  readFull_append_of_length (putUint32 n) rest rfl

mutual
theorem parseField_encode (E : Env) (s : Schema) (w : Wire) (rest : List Byte)
    (h : w.conforms s = true) :
    parseField E s (w.encode ++ rest) = Go.ret ⟨none, w.value E s, rest⟩ := by
  cases w with
  | time date time x =>
    cases s <;> simp [Wire.conforms] at h
    simp [parseField, Wire.encode, Wire.value, unpackDate_append _ _ _ _ h.1 h.2]
  | struct ws =>
    cases s <;> simp [Wire.conforms] at h
    rename_i fs
    simp [parseField, Wire.encode, Wire.value, parseFields_encode E fs ws rest h]
  | payload b =>
    cases s <;> simp [Wire.conforms] at h
    · rename_i elem
      have hlen : ¬ ((b.length : Int) < 0) := by omega
      simp [parseField, Wire.encode, Wire.value, h.1, unpack, readFull_putUint32,
        int32_putUint32 _ h.2, hlen, readFull_append]
    · have hlen : ¬ ((b.length : Int) < 0) := by omega
      simp [parseField, Wire.encode, Wire.value, unpack, readFull_putUint32,
        int32_putUint32 _ h, hlen, readFull_append]
  | empty len =>
    cases s <;> simp [Wire.conforms] at h
    · simp [parseField, Wire.encode, Wire.value, h.1.1, unpack,
        readFull_append_of_length len rest h.1.2, h.2]
    · simp [parseField, Wire.encode, Wire.value, unpack,
        readFull_append_of_length len rest h.1, h.2]
  | list ws =>
    cases s <;> simp [Wire.conforms] at h
    rename_i elem
    have hlen : ¬ ((ws.length : Int) < 0) := by omega
    simp [parseField, Wire.encode, Wire.value, h.1.1, unpack, readFull_putUint32,
      int32_putUint32 _ h.1.2, hlen, parseElems_encode E elem ws rest h.2]
  | int bs =>
    cases s <;> simp [Wire.conforms] at h
    simp [parseField, Wire.encode, Wire.value, unpack, readFull_append_of_length bs rest h]
theorem parseFields_encode (E : Env) (fs : List (String × Schema)) (ws : List Wire)
    (rest : List Byte) (h : conformsFields fs ws = true) :
    parseFields E fs (encodeAll ws ++ rest) = Go.ret (valueFields E fs ws, rest) := by
  cases ws with
  | nil =>
    cases fs <;> simp [conformsFields] at h
    simp [parseFields, encodeAll, valueFields]
  | cons w ws =>
    cases fs with
    | nil => simp [conformsFields] at h
    | cons f fs =>
      obtain ⟨name, s⟩ := f
      simp [conformsFields] at h
      simp [parseFields, encodeAll, valueFields, parseField_encode E s w _ h.1,
        parseFields_encode E fs ws rest h.2]
theorem parseElems_encode (E : Env) (elem : Schema) (ws : List Wire) (rest : List Byte)
    (h : conformsAll elem ws = true) :
    parseElems (fun x => parseField E elem x) ws.length (encodeAll ws ++ rest) =
      Go.ret (valueAll E elem ws, rest) := by
  cases ws with
  | nil => simp [parseElems, encodeAll, valueAll]
  | cons w ws =>
    simp [conformsAll] at h
    simp [parseElems, encodeAll, valueAll, parseField_encode E elem w _ h.1,
      parseElems_encode E elem ws rest h.2]
end

theorem valueAll_eq_map (E : Env) (elem : Schema) (ws : List Wire) :
    valueAll E elem ws = ws.map (fun w => w.value E elem) := by
  induction ws with
  | nil => simp [valueAll]
  | cons w ws ih => simp [valueAll, ih]

/-! ## Decoding at the end of the data -/

mutual
theorem parseField_nil (E : Env) (s : Schema) :
    ∃ err, parseField E s [] = Go.ret ⟨err, zeroValue s, []⟩ := by
  cases s with
  | time => exact ⟨some Error.EOF, by simp [parseField, unpackDate, readFull, zeroValue]⟩
  | struct fs => exact ⟨none, by simp [parseField, parseFields_nil E fs, zeroValue]⟩
  | slice elem =>
    by_cases hb : elem.isUint8 = true
    · exact ⟨some Error.EOF, by simp [parseField, hb, unpack, readFull, zeroValue]⟩
    · exact ⟨some Error.EOF, by simp [parseField, hb, unpack, readFull, zeroValue]⟩
  | string => exact ⟨some Error.EOF, by simp [parseField, unpack, readFull, zeroValue]⟩
  | prim size signed =>
    by_cases hs : size = 0
    · subst hs
      refine ⟨none, ?_⟩
      cases signed <;> simp [parseField, unpack, readFull, zeroValue, primValue, bigEndian, toSigned]
    · exact ⟨some Error.EOF, by simp [parseField, unpack, readFull, hs, zeroValue]⟩
theorem parseFields_nil (E : Env) (fs : List (String × Schema)) :
    parseFields E fs [] = Go.ret (zeroFields fs, []) := by
  cases fs with
  | nil => simp [parseFields, zeroFields]
  | cons f fs =>
    obtain ⟨name, s⟩ := f
    obtain ⟨err, h⟩ := parseField_nil E s
    simp [parseFields, zeroFields, h, parseFields_nil E fs]
end

theorem parseField_struct_nil (E : Env) (fs : List (String × Schema)) :
    parseField E (Schema.struct fs) [] = Go.ret ⟨none, zeroValue (Schema.struct fs), []⟩ := by
  simp [parseField, parseFields_nil E fs, zeroValue]

/-! ## The `Locations` loop -/

theorem locationsLoop_endmark (E : Env) (fuel : Nat) (r r1 : Reader) (v : Value)
    (acc : List Value)
    (hp : parseField E (Schema.struct E.Location) r = Go.ret ⟨none, v, r1⟩)
    (hv : isEndmark v = true) :
    locationsLoop E (fuel + 1) r acc = some (Go.ret (acc, none)) := by
  simp [locationsLoop, hp, hv]

theorem locationsLoop_records (E : Env) (records : List Wire) :
    ∀ (fuel : Nat) (tail : List Byte) (acc : List Value),
      (∀ w ∈ records, w.conforms (Schema.struct E.Location) = true ∧
        isEndmark (w.value E (Schema.struct E.Location)) = false) →
      locationsLoop E (fuel + records.length) (encodeAll records ++ tail) acc =
        locationsLoop E fuel tail
          (acc ++ records.map (fun w => w.value E (Schema.struct E.Location))) := by
  induction records with
  | nil => intro fuel tail acc _; simp [encodeAll]
  | cons w ws ih =>
    intro fuel tail acc h
    have hw := h w (List.mem_cons_self _ _)
    have hws : ∀ w ∈ ws, w.conforms (Schema.struct E.Location) = true ∧
        isEndmark (w.value E (Schema.struct E.Location)) = false :=
      fun x hx => h x (List.mem_cons_of_mem _ hx)
    have hfuel : fuel + (w :: ws).length = (fuel + ws.length) + 1 := by simp; omega
    rw [hfuel]
    simp only [locationsLoop, encodeAll, List.append_assoc]
    rw [parseField_encode E _ w _ hw.1]
    simp [hw.2, ih fuel tail _ hws]

/-- The encoding of a record that is not the end mark is not empty, as soon as some input
decodes to an end mark. -/
theorem encode_ne_nil_of_not_endmark (E : Env) (s : Schema) (w : Wire) (t r1 : Reader)
    (err : Option Error) (v : Value) (hc : w.conforms s = true)
    (hw : isEndmark (w.value E s) = false)
    (hp : parseField E s t = Go.ret ⟨err, v, r1⟩) (hv : isEndmark v = true) :
    w.encode ≠ [] := by
  intro h0
  have h := parseField_encode E s w t hc
  rw [h0, List.nil_append, hp] at h
  injection h with h
  injection h with _ h2 _
  rw [h2, hw] at hv
  exact Bool.false_ne_true hv

theorem length_le_encodeAll (records : List Wire) (h : ∀ w ∈ records, w.encode ≠ []) :
    records.length ≤ (encodeAll records).length := by
  induction records with
  | nil => simp
  | cons w ws ih =>
    have hw := h w (List.mem_cons_self _ _)
    have hpos : 0 < w.encode.length := List.length_pos.mpr hw
    have := ih (fun x hx => h x (List.mem_cons_of_mem _ hx))
    simp [encodeAll]
    omega

/-- C3: a `Locations` buffer made of the four bytes of `FullLen`, `N` well-formed records that
are not the end mark, and a well-formed terminator record that is the end mark (media key and
size zero, file name empty), is decoded without error to exactly the `N` records, in order;
the terminator is not appended.  Bytes after the terminator, if any, are not looked at. -/
theorem ParseCache_locations_terminator (E : Env) (keytype : Nat) (data : GoBytes)
    (fullLen : List Byte) (records : List Wire) (terminator : Wire) (trailing : List Byte)
    (hkey : E.LSK keytype = some LskType.Locations)
    (hfull : fullLen.length = 4)
    (hrec : ∀ w ∈ records, w.conforms (Schema.struct E.Location) = true ∧
      isEndmark (w.value E (Schema.struct E.Location)) = false)
    (hterm : terminator.conforms (Schema.struct E.Location) = true ∧
      isEndmark (terminator.value E (Schema.struct E.Location)) = true)
    (hdata : data.bytes = fullLen ++ (encodeAll records ++ (terminator.encode ++ trailing))) :
    ParseCache E data keytype =
      some (Go.ret (CacheResult.locations (littleEndian fullLen)
        (records.map (fun w => w.value E (Schema.struct E.Location))), none)) := by
  have hpt := parseField_encode E _ terminator trailing hterm.1
  have hne : ∀ w ∈ records, w.encode ≠ [] := fun w hw =>
    encode_ne_nil_of_not_endmark E _ w _ _ _ _ (hrec w hw).1 (hrec w hw).2 hpt hterm.2
  have hlen := length_le_encodeAll records hne
  obtain ⟨k, hk⟩ : ∃ k, (encodeAll records ++ (terminator.encode ++ trailing)).length + 1 =
      (k + 1) + records.length := by
    refine ⟨(encodeAll records ++ (terminator.encode ++ trailing)).length - records.length, ?_⟩
    simp only [List.length_append]
    omega
  unfold ParseCache
  simp only [hkey, hdata, readFull_append_of_length fullLen _ hfull]
  rw [hk, locationsLoop_records E records (k + 1) _ [] hrec,
    locationsLoop_endmark E k _ _ _ _ hpt hterm.2]
  simp

/-- C4: a `Locations` buffer made of the four bytes of `FullLen` and `N` well-formed records
that are not the end mark, and nothing else, is decoded without error to exactly the `N`
records, in order.  The hypothesis `hzero` says that `Location` declares the fields the end
mark test reads. -/
theorem ParseCache_locations_no_terminator (E : Env) (keytype : Nat) (data : GoBytes)
    (fullLen : List Byte) (records : List Wire)
    (hkey : E.LSK keytype = some LskType.Locations)
    (hzero : isEndmark (zeroValue (Schema.struct E.Location)) = true)
    (hfull : fullLen.length = 4)
    (hrec : ∀ w ∈ records, w.conforms (Schema.struct E.Location) = true ∧
      isEndmark (w.value E (Schema.struct E.Location)) = false)
    (hdata : data.bytes = fullLen ++ encodeAll records) :
    ParseCache E data keytype =
      some (Go.ret (CacheResult.locations (littleEndian fullLen)
        (records.map (fun w => w.value E (Schema.struct E.Location))), none)) := by
  have hpt := parseField_struct_nil E E.Location
  have hne : ∀ w ∈ records, w.encode ≠ [] := fun w hw =>
    encode_ne_nil_of_not_endmark E _ w _ _ _ _ (hrec w hw).1 (hrec w hw).2 hpt hzero
  have hlen := length_le_encodeAll records hne
  obtain ⟨k, hk⟩ : ∃ k, (encodeAll records).length + 1 = (k + 1) + records.length :=
    ⟨(encodeAll records).length - records.length, by omega⟩
  have hloop := locationsLoop_records E records (k + 1) [] [] hrec
  rw [List.append_nil] at hloop
  unfold ParseCache
  simp only [hkey, hdata, readFull_append_of_length fullLen _ hfull]
  rw [hk, hloop, locationsLoop_endmark E k _ _ _ _ hpt hzero]
  simp

/-- Witness of C3, scenario B of the specification: one record with file name `a.jpg` and size
100, then a terminator record of 24 zero bytes. -/
theorem ParseCache_locations_terminator_witness :
    ParseCache sampleEnv
      (GoBytes.ofList
        ([62, 0, 0, 0,
          0, 0, 0, 1, 0, 0, 0, 2, 0, 0, 0, 0, 0, 0, 0, 3,
          0, 0, 0, 10, 0, 97, 0, 46, 0, 106, 0, 112, 0, 103,
          0, 0, 0, 100] ++ List.replicate 24 0)) 4 =
      some (Go.ret (CacheResult.locations 62
        [Value.struct
          [("MediaKey", Value.struct
              [("LocationType", Value.int 1), ("DC", Value.int 2), ("ID", Value.int 3)]),
           ("Filename", Value.string "a.jpg"),
           ("Size", Value.int 100)]], none)) :=
  ParseCache_locations_terminator sampleEnv 4 _ [62, 0, 0, 0]
    [Wire.struct
      [Wire.struct [Wire.int [0, 0, 0, 1], Wire.int [0, 0, 0, 2],
        Wire.int [0, 0, 0, 0, 0, 0, 0, 3]],
       Wire.payload [0, 97, 0, 46, 0, 106, 0, 112, 0, 103],
       Wire.int [0, 0, 0, 100]]]
    (Wire.struct
      [Wire.struct [Wire.int [0, 0, 0, 0], Wire.int [0, 0, 0, 0],
        Wire.int [0, 0, 0, 0, 0, 0, 0, 0]],
       Wire.payload [],
       Wire.int [0, 0, 0, 0]])
    [] rfl rfl
    (by intro w hw; rw [List.mem_singleton] at hw; subst hw; exact ⟨rfl, rfl⟩)
    ⟨rfl, rfl⟩ rfl

/-- Witness of C4: the buffer of scenario B without its terminator record. -/
theorem ParseCache_locations_no_terminator_witness :
    ParseCache sampleEnv
      (GoBytes.ofList
        [38, 0, 0, 0,
         0, 0, 0, 1, 0, 0, 0, 2, 0, 0, 0, 0, 0, 0, 0, 3,
         0, 0, 0, 10, 0, 97, 0, 46, 0, 106, 0, 112, 0, 103,
         0, 0, 0, 100]) 4 =
      some (Go.ret (CacheResult.locations 38
        [Value.struct
          [("MediaKey", Value.struct
              [("LocationType", Value.int 1), ("DC", Value.int 2), ("ID", Value.int 3)]),
           ("Filename", Value.string "a.jpg"),
           ("Size", Value.int 100)]], none)) :=
  ParseCache_locations_no_terminator sampleEnv 4 _ [38, 0, 0, 0]
    [Wire.struct
      [Wire.struct [Wire.int [0, 0, 0, 1], Wire.int [0, 0, 0, 2],
        Wire.int [0, 0, 0, 0, 0, 0, 0, 3]],
       Wire.payload [0, 97, 0, 46, 0, 106, 0, 112, 0, 103],
       Wire.int [0, 0, 0, 100]]]
    rfl rfl rfl
    (by intro w hw; rw [List.mem_singleton] at hw; subst hw; exact ⟨rfl, rfl⟩)
    rfl

/-! ## The `UserSettings` loop -/

theorem parseUserSetting_entry (E : Env) (e : Entry) (rest : List Byte)
    (h : e.wellFormed E) :
    parseUserSetting E (e.value.encode ++ rest) (bigEndian e.blockID) =
      Go.ret ⟨e.setting E, none, rest⟩ := by
  obtain ⟨_, hdbi, hname, hfield, hconf⟩ := h
  unfold parseUserSetting
  simp only [hdbi, hname, if_false, hfield, parseField_encode E _ _ rest hconf]
  rfl

theorem settingsLoop_entries (E : Env) (entries : List Entry) :
    ∀ (fuel : Nat) (tail : List Byte) (acc : List Setting),
      (∀ e ∈ entries, e.wellFormed E) →
      settingsLoop E (fuel + entries.length) (encodeEntries entries ++ tail) acc =
        settingsLoop E fuel tail (acc ++ entries.map (Entry.setting E)) := by
  induction entries with
  | nil => intro fuel tail acc _; simp [encodeEntries]
  | cons e es ih =>
    intro fuel tail acc h
    have he := h e (List.mem_cons_self _ _)
    have hes : ∀ x ∈ es, x.wellFormed E := fun x hx => h x (List.mem_cons_of_mem _ hx)
    have hfuel : fuel + (e :: es).length = (fuel + es.length) + 1 := by simp; omega
    rw [hfuel]
    simp only [settingsLoop, encodeEntries, Entry.encode, List.append_assoc, unpack]
    rw [readFull_append_of_length e.blockID _ he.1]
    simp only
    rw [parseUserSetting_entry E e _ he]
    simp [ih fuel tail _ hes]

theorem settingsLoop_nil (E : Env) (fuel : Nat) (acc : List Setting) :
    settingsLoop E (fuel + 1) [] acc = some (Go.ret (acc, none)) := by
  simp [settingsLoop, unpack, readFull]

theorem settingsLoop_unknown (E : Env) (fuel : Nat) (blockID rest : List Byte)
    (acc : List Setting) (hid : blockID.length = 4) (hdbi : E.DBI (bigEndian blockID) = none) :
    settingsLoop E (fuel + 1) (blockID ++ rest) acc =
      some (Go.ret (acc, some (Error.wrap (Error.blockIDNotFound (bigEndian blockID))))) := by
  simp only [settingsLoop, unpack]
  rw [readFull_append_of_length blockID _ hid]
  simp [parseUserSetting, hdbi, errorsWrap]

theorem length_le_encodeEntries (E : Env) (entries : List Entry)
    (h : ∀ e ∈ entries, e.wellFormed E) : entries.length ≤ (encodeEntries entries).length := by
  induction entries with
  | nil => simp
  | cons e es ih =>
    have he := (h e (List.mem_cons_self _ _)).1
    have := ih (fun x hx => h x (List.mem_cons_of_mem _ hx))
    simp [encodeEntries, Entry.encode]
    omega

/-- The `UserSettings` case on a buffer whose `FullLen` is the offset of the end of `body`: the
loop runs on `body`, and what follows it is not read. -/
theorem ParseCache_userSettings_body (E : Env) (keytype : Nat) (data : GoBytes)
    (fullLen body trailing : List Byte)
    (hkey : E.LSK keytype = some LskType.UserSettings)
    (hfull : fullLen.length = 4)
    (hdata : data.bytes = fullLen ++ (body ++ trailing))
    (hlen : littleEndian fullLen = 4 + body.length) :
    ParseCache E data keytype =
      match settingsLoop E (body.length + 1) body [] with
      | none => none
      | some (Go.panic m) => some (Go.panic m)
      | some (Go.ret (settings, err)) =>
        some (Go.ret (CacheResult.userSettings (4 + body.length) settings, err)) := by
  have hlen' : data.bytes.length = data.len := by
    simp [GoBytes.bytes, data.le]
  have hle : 4 + body.length ≤ data.len := by
    rw [← hlen', hdata]; simp [hfull]
  have hcap : 4 + body.length ≤ data.cap := Nat.le_trans hle data.le
  have htake : data.array.take (4 + body.length) = fullLen ++ body := by
    have h1 : data.array.take (4 + body.length) = data.bytes.take (4 + body.length) := by
      simp [GoBytes.bytes, List.take_take, Nat.min_eq_left hle]
    rw [h1, hdata, ← List.append_assoc, List.take_append_of_le_length (by simp [hfull])]
    rw [List.take_of_length_le (by simp [hfull])]
  have hdrop : (data.array.take (4 + body.length)).drop 4 = body := by
    rw [htake, ← hfull, List.drop_left]
  unfold ParseCache
  simp only [hkey, hdata, readFull_append_of_length fullLen _ hfull, hlen]
  rw [if_pos ⟨by omega, hcap⟩]
  simp only [hdrop]

/-- C5: a settings buffer made of the four bytes of `FullLen` and `k` well-formed entries, where
`FullLen` is the offset at which the entries end (it counts from the start of the buffer, its
own four bytes included), is decoded without error to exactly `k` settings, the `i`-th being
the field name registered for the `i`-th block identifier with the `i`-th value, in the order
of the buffer.  Bytes after `FullLen`, if any, are not read. -/
theorem ParseCache_userSettings_entries (E : Env) (keytype : Nat) (data : GoBytes)
    (fullLen : List Byte) (entries : List Entry) (trailing : List Byte)
    (hkey : E.LSK keytype = some LskType.UserSettings)
    (hfull : fullLen.length = 4)
    (hent : ∀ e ∈ entries, e.wellFormed E)
    (hdata : data.bytes = fullLen ++ (encodeEntries entries ++ trailing))
    (hlen : littleEndian fullLen = 4 + (encodeEntries entries).length) :
    ParseCache E data keytype =
      some (Go.ret (CacheResult.userSettings (littleEndian fullLen)
        (entries.map (Entry.setting E)), none)) := by
  rw [ParseCache_userSettings_body E keytype data fullLen _ trailing hkey hfull hdata hlen]
  have hle := length_le_encodeEntries E entries hent
  obtain ⟨k, hk⟩ : ∃ k, (encodeEntries entries).length + 1 = (k + 1) + entries.length :=
    ⟨(encodeEntries entries).length - entries.length, by omega⟩
  have hloop := settingsLoop_entries E entries (k + 1) [] [] hent
  rw [List.append_nil] at hloop
  rw [hk, hloop, settingsLoop_nil, hlen]
  simp

/-- Witness of C5, scenario C of the specification: the block identifier of the integer field
`DbiAutoStart` followed by the value 42; `FullLen` is 12, the four bytes of the prefix and the
eight bytes of the entry. -/
theorem ParseCache_userSettings_entries_witness :
    ParseCache sampleEnv (GoBytes.ofList [12, 0, 0, 0, 0, 0, 0, 6, 0, 0, 0, 42]) 9 =
      some (Go.ret (CacheResult.userSettings 12
        [[("DbiAutoStart", SettingValue.field (Value.int 42))]], none)) :=
  ParseCache_userSettings_entries sampleEnv 9 _ [12, 0, 0, 0]
    [⟨[0, 0, 0, 6], "DbiAutoStart", Schema.prim 4 true, Wire.int [0, 0, 0, 42]⟩] []
    rfl rfl
    (by
      intro e he
      rw [List.mem_singleton] at he
      subst he
      exact ⟨rfl, rfl, by decide, rfl, rfl⟩)
    rfl rfl

/-- Scenario C with `FullLen` set to 8, the length of the entry alone: the reader is cut after
the block identifier and the call returns an error. -/
theorem ParseCache_userSettings_fullLen_eight :
    ParseCache sampleEnv (GoBytes.ofList [8, 0, 0, 0, 0, 0, 0, 6, 0, 0, 0, 42]) 9 =
      some (Go.ret (CacheResult.userSettings 8 [],
        some (Error.wrap (Error.field "DbiAutoStart" Error.EOF)))) := by
  rfl

/-- The `UserSettings` case on well-formed entries followed by a block identifier that is not
in `DBI`: the error is returned together with the settings decoded so far. -/
theorem ParseCache_userSettings_unknown (E : Env) (keytype : Nat) (data : GoBytes)
    (fullLen : List Byte) (entries : List Entry) (blockID rest : List Byte)
    (hkey : E.LSK keytype = some LskType.UserSettings)
    (hfull : fullLen.length = 4)
    (hent : ∀ e ∈ entries, e.wellFormed E)
    (hid : blockID.length = 4)
    (hdbi : E.DBI (bigEndian blockID) = none)
    (hdata : data.bytes = fullLen ++ (encodeEntries entries ++ (blockID ++ rest)))
    (hlen : littleEndian fullLen = data.len) :
    ParseCache E data keytype =
      some (Go.ret (CacheResult.userSettings (littleEndian fullLen)
        (entries.map (Entry.setting E)),
        some (Error.wrap (Error.blockIDNotFound (bigEndian blockID))))) := by
  have hlen' : data.bytes.length = data.len := by
    simp [GoBytes.bytes, data.le]
  have hlen2 : littleEndian fullLen = 4 + (encodeEntries entries ++ (blockID ++ rest)).length := by
    rw [hlen, ← hlen', hdata]; simp [hfull]
  have hdata2 : data.bytes = fullLen ++ ((encodeEntries entries ++ (blockID ++ rest)) ++ []) := by
    rw [List.append_nil]; exact hdata
  rw [ParseCache_userSettings_body E keytype data fullLen _ [] hkey hfull hdata2 hlen2]
  have hle := length_le_encodeEntries E entries hent
  obtain ⟨k, hk⟩ : ∃ k, (encodeEntries entries ++ (blockID ++ rest)).length + 1 =
      (k + 1) + entries.length := by
    refine ⟨(encodeEntries entries ++ (blockID ++ rest)).length - entries.length, ?_⟩
    simp only [List.length_append]
    omega
  rw [hk, settingsLoop_entries E entries (k + 1) _ [] hent,
    settingsLoop_unknown E k blockID rest _ hid hdbi, hlen2]
  simp

/-- C6, as stated, fails: on a settings buffer with the valid entry `DbiAutoStart = 42` followed
by the unregistered block identifier `0xffffffff`, `ParseCache` returns the error, and the
value returned with it holds the one entry decoded before, not zero entries. -/
theorem ParseCache_userSettings_partial_counterexample :
    ParseCache sampleEnv
        (GoBytes.ofList [16, 0, 0, 0, 0, 0, 0, 6, 0, 0, 0, 42, 255, 255, 255, 255]) 9 =
      some (Go.ret (CacheResult.userSettings 16
        [[("DbiAutoStart", SettingValue.field (Value.int 42))]],
        some (Error.wrap (Error.blockIDNotFound 4294967295)))) ∧
    ¬ ∃ err, ParseCache sampleEnv
        (GoBytes.ofList [16, 0, 0, 0, 0, 0, 0, 6, 0, 0, 0, 42, 255, 255, 255, 255]) 9 =
      some (Go.ret (CacheResult.userSettings 16 [], err)) := by
  have h : ParseCache sampleEnv
        (GoBytes.ofList [16, 0, 0, 0, 0, 0, 0, 6, 0, 0, 0, 42, 255, 255, 255, 255]) 9 =
      some (Go.ret (CacheResult.userSettings 16
        [[("DbiAutoStart", SettingValue.field (Value.int 42))]],
        some (Error.wrap (Error.blockIDNotFound 4294967295)))) := rfl
  refine ⟨h, ?_⟩
  rintro ⟨err, h2⟩
  rw [h] at h2
  injection h2 with h2
  injection h2 with h2
  injection h2 with h2 _
  injection h2 with _ h2
  exact List.noConfusion h2

/-- C6, amended: on a settings buffer made of one well-formed entry followed by a block
identifier that is not in `DBI`, `ParseCache` returns the error `blockID not found` (wrapped),
and the value returned with the error holds the entry decoded before the failure. -/
theorem ParseCache_userSettings_partial (E : Env) (keytype : Nat) (data : GoBytes)
    (fullLen : List Byte) (e : Entry) (blockID rest : List Byte)
    (hkey : E.LSK keytype = some LskType.UserSettings)
    (hfull : fullLen.length = 4)
    (he : e.wellFormed E)
    (hid : blockID.length = 4)
    (hdbi : E.DBI (bigEndian blockID) = none)
    (hdata : data.bytes = fullLen ++ (e.encode ++ (blockID ++ rest)))
    (hlen : littleEndian fullLen = data.len) :
    ParseCache E data keytype =
      some (Go.ret (CacheResult.userSettings (littleEndian fullLen) [e.setting E],
        some (Error.wrap (Error.blockIDNotFound (bigEndian blockID))))) := by
  have hent : ∀ x ∈ [e], x.wellFormed E := by
    intro x hx; rw [List.mem_singleton] at hx; subst hx; exact he
  have hdata2 : data.bytes = fullLen ++ (encodeEntries [e] ++ (blockID ++ rest)) := by
    simpa [encodeEntries] using hdata
  exact ParseCache_userSettings_unknown E keytype data fullLen [e] blockID rest hkey hfull hent
    hid hdbi hdata2 hlen

/-- Witness of the amended C6. -/
theorem ParseCache_userSettings_partial_witness :
    ParseCache sampleEnv
        (GoBytes.ofList [16, 0, 0, 0, 0, 0, 0, 6, 0, 0, 0, 42, 255, 255, 255, 255]) 9 =
      some (Go.ret (CacheResult.userSettings 16
        [[("DbiAutoStart", SettingValue.field (Value.int 42))]],
        some (Error.wrap (Error.blockIDNotFound 4294967295)))) :=
  ParseCache_userSettings_partial sampleEnv 9 _ [16, 0, 0, 0]
    ⟨[0, 0, 0, 6], "DbiAutoStart", Schema.prim 4 true, Wire.int [0, 0, 0, 42]⟩
    [255, 255, 255, 255] [] rfl rfl ⟨rfl, rfl, by decide, rfl, rfl⟩ rfl rfl rfl rfl

/-- C7: for a block identifier that is not in `DBI`, `parseUserSetting` returns the error
`blockID not found` carrying that identifier and a nil map, and leaves the reader where it
was; and `ParseCache` on a settings buffer whose first entry has such an identifier returns
that error (wrapped), with no setting decoded. -/
theorem parseUserSetting_unknown_blockID (E : Env) (id : Nat) (hdbi : E.DBI id = none) :
    (∀ r : Reader,
      parseUserSetting E r id = Go.ret ⟨[], some (Error.blockIDNotFound id), r⟩) ∧
    (∀ (keytype : Nat) (data : GoBytes) (fullLen blockID rest : List Byte),
      E.LSK keytype = some LskType.UserSettings →
      fullLen.length = 4 → blockID.length = 4 → bigEndian blockID = id →
      data.bytes = fullLen ++ (blockID ++ rest) →
      littleEndian fullLen = data.len →
      ParseCache E data keytype =
        some (Go.ret (CacheResult.userSettings (littleEndian fullLen) [],
          some (Error.wrap (Error.blockIDNotFound id))))) := by
  constructor
  · intro r
    simp [parseUserSetting, hdbi]
  · intro keytype data fullLen blockID rest hkey hfull hid hval hdata hlen
    subst hval
    have h := ParseCache_userSettings_unknown E keytype data fullLen [] blockID rest hkey hfull
      (by intro x hx; cases hx) hid hdbi (by simpa [encodeEntries] using hdata) hlen
    simpa using h

/-- Witness of C7, scenario D of the specification: the block identifier `0xffffffff`. -/
theorem parseUserSetting_unknown_blockID_witness :
    parseUserSetting sampleEnv [0, 0, 0, 42] 4294967295 =
      Go.ret ⟨[], some (Error.blockIDNotFound 4294967295), [0, 0, 0, 42]⟩ ∧
    ParseCache sampleEnv (GoBytes.ofList [12, 0, 0, 0, 255, 255, 255, 255, 0, 0, 0, 42]) 9 =
      some (Go.ret (CacheResult.userSettings 12 [],
        some (Error.wrap (Error.blockIDNotFound 4294967295)))) :=
  ⟨(parseUserSetting_unknown_blockID sampleEnv 4294967295 rfl).1 [0, 0, 0, 42],
   (parseUserSetting_unknown_blockID sampleEnv 4294967295 rfl).2 9 _ [12, 0, 0, 0]
     [255, 255, 255, 255] [0, 0, 0, 42] rfl rfl rfl rfl rfl rfl⟩

/-! ## The dispatcher on an unknown key type -/

/-- C8: for a key type that is not in `LSK`, `ParseCache` returns `struct{}{}` and a nil error
whatever the buffer is; nothing is read from it. -/
theorem ParseCache_unknown_keytype (E : Env) (keytype : Nat) (hkey : E.LSK keytype = none)
    (data : GoBytes) :
    ParseCache E data keytype = some (Go.ret (CacheResult.empty, none)) := by
  simp [ParseCache, hkey]

/-- Witness of C8: key type 0 is not in the sample registry. -/
theorem ParseCache_unknown_keytype_witness :
    ParseCache sampleEnv (GoBytes.ofList [1, 2, 3]) 0 =
      some (Go.ret (CacheResult.empty, none)) :=
  ParseCache_unknown_keytype sampleEnv 0 rfl (GoBytes.ofList [1, 2, 3])

/-! ## Errors of nested reads -/

theorem parseField_struct_err (E : Env) (fs : List (String × Schema)) (r : Reader) (p : Parsed)
    (h : parseField E (Schema.struct fs) r = Go.ret p) : p.err = none := by
  simp only [parseField] at h
  split at h
  · cases h
  · injection h with h
    rw [← h]

/-- C9 fails on the code: with nothing left to read, the read of a `uint32` field fails with
`io.EOF`, yet `parseField` on a struct that has this one field returns `nil` and leaves the
field at zero; and on a slice of `uint32` with a length prefix of 1 and no element bytes it
returns `nil` with one element at zero. -/
theorem parseField_nested_error_dropped (E : Env) :
    parseField E (Schema.prim 4 false) [] = Go.ret ⟨some Error.EOF, Value.int 0, []⟩ ∧
    parseField E (Schema.struct [("Size", Schema.prim 4 false)]) [] =
      Go.ret ⟨none, Value.struct [("Size", Value.int 0)], []⟩ ∧
    parseField E (Schema.slice (Schema.prim 4 false)) [0, 0, 0, 1] =
      Go.ret ⟨none, Value.slice [Value.int 0], []⟩ := by
  refine ⟨rfl, rfl, rfl⟩

/-! ## The connection type -/

/-- C10: on the tag 5 followed by a complete header of four `int32` (count, index, settings,
calls), `parseConnectionType` returns the error `not implemented` exactly when the count is
positive or the settings mode is 1, and otherwise the marker `&connectionType{}` with a nil
error; in both cases the reader is left exactly 20 bytes further. -/
theorem parseConnectionType_proxiesList (tag count index settings calls rest : List Byte)
    (htag : tag.length = 4) (hcount : count.length = 4) (hindex : index.length = 4)
    (hsettings : settings.length = 4) (hcalls : calls.length = 4)
    (h5 : int32 tag = 5) :
    parseConnectionType (tag ++ (count ++ (index ++ (settings ++ (calls ++ rest))))) =
      (if int32 count > 0 ∨ int32 settings = 1 then
        ((none, some Error.notImplemented), rest)
      else ((some {}, none), rest)) := by
  have hh : unpackHeader (count ++ (index ++ (settings ++ (calls ++ rest)))) =
      (.ok ⟨int32 count, int32 index, int32 settings, int32 calls⟩, rest) := by
    unfold unpackHeader
    rw [readFull_append_of_length count _ hcount]
    simp only
    rw [readFull_append_of_length index _ hindex]
    simp only
    rw [readFull_append_of_length settings _ hsettings]
    simp only
    rw [readFull_append_of_length calls _ hcalls]
  unfold parseConnectionType
  rw [unpack, readFull_append_of_length tag _ htag]
  simp only [h5, if_true, hh]
  by_cases hc : int32 count > 0
  · simp [hc]
  · by_cases hs : int32 settings = 1
    · simp [hc, hs]
    · simp only [hc, hs, if_false, or_self]
      split <;> rfl

/-- Witness of C10: a header of zeros gives the marker. -/
theorem parseConnectionType_proxiesList_witness :
    parseConnectionType
        [0, 0, 0, 5, 0, 0, 0, 0, 0, 0, 0, 0, 0, 0, 0, 0, 0, 0, 0, 0, 7] =
      ((some {}, none), [7]) :=
  parseConnectionType_proxiesList [0, 0, 0, 5] [0, 0, 0, 0] [0, 0, 0, 0] [0, 0, 0, 0]
    [0, 0, 0, 0] [7] rfl rfl rfl rfl rfl rfl

/-- A `Locations` buffer cut in the middle of the file name of its only record: the read of the
file name fails with `io.ErrUnexpectedEOF`, the error is dropped by the struct case, and
`ParseCache` returns a nil error with a `Location` whose file name and size are zero. -/
theorem ParseCache_locations_truncated_record :
    parseField sampleEnv Schema.string [0, 0, 0, 10, 0, 97] =
      Go.ret ⟨some Error.ErrUnexpectedEOF, Value.string "", []⟩ ∧
    ParseCache sampleEnv
      (GoBytes.ofList
        [26, 0, 0, 0,
         0, 0, 0, 1, 0, 0, 0, 2, 0, 0, 0, 0, 0, 0, 0, 3,
         0, 0, 0, 10, 0, 97]) 4 =
      some (Go.ret (CacheResult.locations 26
        [Value.struct
          [("MediaKey", Value.struct
              [("LocationType", Value.int 1), ("DC", Value.int 2), ("ID", Value.int 3)]),
           ("Filename", Value.string ""),
           ("Size", Value.int 0)]], none)) := by
  exact ⟨rfl, rfl⟩

/-- C11: on a complete tag of four bytes whose value is not 5, `parseConnectionType` returns a
nil pointer and a nil error and leaves the reader exactly four bytes further; and
`parseUserSetting` for a block identifier registered as `DbiConnectionType` then returns a map
with the entry `DbiConnectionType` holding that nil pointer, and a nil error. -/
theorem parseConnectionType_other_tag (tag rest : List Byte) (htag : tag.length = 4)
    (h5 : int32 tag ≠ 5) :
    parseConnectionType (tag ++ rest) = ((none, none), rest) ∧
    ∀ (E : Env) (blockID : Nat), E.DBI blockID = some "DbiConnectionType" →
      parseUserSetting E (tag ++ rest) blockID =
        Go.ret ⟨[("DbiConnectionType", SettingValue.connectionType none)], none, rest⟩ := by
  have h : parseConnectionType (tag ++ rest) = ((none, none), rest) := by
    unfold parseConnectionType
    rw [unpack, readFull_append_of_length tag _ htag]
    simp [h5]
  refine ⟨h, ?_⟩
  intro E blockID hdbi
  simp [parseUserSetting, hdbi, h]

/-- Witness of C11: the tag 0 (`dbictAuto`) under the block identifier 79 of the sample
registry. -/
theorem parseConnectionType_other_tag_witness :
    parseConnectionType [0, 0, 0, 0, 7] = ((none, none), [7]) ∧
    parseUserSetting sampleEnv [0, 0, 0, 0, 7] 79 =
      Go.ret ⟨[("DbiConnectionType", SettingValue.connectionType none)], none, [7]⟩ :=
  ⟨(parseConnectionType_other_tag [0, 0, 0, 0] [7] rfl (by decide)).1,
   (parseConnectionType_other_tag [0, 0, 0, 0] [7] rfl (by decide)).2 sampleEnv 79 rfl⟩

/-! ## Timestamps -/

/-- C15: with at least 13 bytes left, `parseField` on a `time.Time` field reads eight bytes of
date, four bytes of time and one more byte, sets the field to `QDateTime(date, time)`, in which
the thirteenth byte has no part, and leaves the reader exactly 13 bytes further; with fewer
than 13 bytes left it returns an error and the field keeps its zero value. -/
theorem parseField_time (E : Env) (r : Reader) :
    (13 ≤ r.length →
      parseField E Schema.time r =
        Go.ret ⟨none,
          Value.time (E.QDateTime (bigEndian (r.take 8)) (bigEndian ((r.drop 8).take 4))),
          r.drop 13⟩) ∧
    (r.length < 13 →
      ∃ err, parseField E Schema.time r =
        Go.ret ⟨some err, Value.time Timestamp.zero, []⟩) := by
  constructor
  · intro h
    have h8 : 8 ≤ r.length := by omega
    have h4 : 4 ≤ (r.drop 8).length := by simp; omega
    have h1 : 1 ≤ ((r.drop 8).drop 4).length := by simp; omega
    simp only [parseField, unpackDate, readFull_ok 8 r h8, readFull_ok 4 _ h4,
      readFull_ok 1 _ h1]
    simp [List.drop_drop]
  · intro h
    by_cases h8 : 8 ≤ r.length
    · by_cases h4 : 4 ≤ (r.drop 8).length
      · have h1 : ((r.drop 8).drop 4).length < 1 := by
          simp at h4 ⊢; omega
        exact ⟨_, by
          simp only [parseField, unpackDate, readFull_ok 8 r h8, readFull_ok 4 _ h4,
            readFull_short 1 _ h1]
          rfl⟩
      · have h4' : (r.drop 8).length < 4 := Nat.lt_of_not_le h4
        exact ⟨_, by
          simp only [parseField, unpackDate, readFull_ok 8 r h8, readFull_short 4 _ h4']
          rfl⟩
    · have h8' : r.length < 8 := Nat.lt_of_not_le h8
      exact ⟨_, by
        simp only [parseField, unpackDate, readFull_short 8 r h8']
        rfl⟩

/-- Witness of C15: thirteen bytes and one more, then twelve bytes. -/
theorem parseField_time_witness :
    parseField sampleEnv Schema.time [0, 0, 0, 0, 0, 0, 1, 2, 0, 0, 0, 3, 99, 7] =
      Go.ret ⟨none, Value.time ⟨258, 3⟩, [7]⟩ ∧
    ∃ err, parseField sampleEnv Schema.time [0, 0, 0, 0, 0, 0, 1, 2, 0, 0, 0, 3] =
      Go.ret ⟨some err, Value.time Timestamp.zero, []⟩ :=
  ⟨(parseField_time sampleEnv [0, 0, 0, 0, 0, 0, 1, 2, 0, 0, 0, 3, 99, 7]).1 (by decide),
   (parseField_time sampleEnv [0, 0, 0, 0, 0, 0, 1, 2, 0, 0, 0, 3]).2 (by decide)⟩

/-! ## Lists with a negative length -/

/-- C16: when the next four bytes decode to a negative `int32`, `parseField` on a slice of
elements other than bytes does not return: `reflect.MakeSlice` panics on the negative length.
No list value is produced and no success is reported; the negative length is not taken as an
empty list. -/
theorem parseField_list_negative_length (E : Env) (elem : Schema) (r : Reader)
    (helem : elem.isUint8 = false) (h4 : 4 ≤ r.length) (hneg : int32 (r.take 4) < 0) :
    parseField E (Schema.slice elem) r = Go.panic "reflect.MakeSlice: negative len" ∧
    ∀ p : Parsed, parseField E (Schema.slice elem) r ≠ Go.ret p := by
  have h : parseField E (Schema.slice elem) r = Go.panic "reflect.MakeSlice: negative len" := by
    simp [parseField, helem, unpack, readFull_ok 4 r h4, hneg]
  refine ⟨h, ?_⟩
  intro p hp
  rw [h] at hp
  cases hp

/-- Witness of C16: a list of `uint32` with the length prefix `ff ff ff ff`. -/
theorem parseField_list_negative_length_witness :
    parseField sampleEnv (Schema.slice (Schema.prim 4 false)) [255, 255, 255, 255, 0, 0, 0, 1] =
      Go.panic "reflect.MakeSlice: negative len" ∧
    ∀ p : Parsed,
      parseField sampleEnv (Schema.slice (Schema.prim 4 false))
        [255, 255, 255, 255, 0, 0, 0, 1] ≠ Go.ret p :=
  parseField_list_negative_length sampleEnv (Schema.prim 4 false)
    [255, 255, 255, 255, 0, 0, 0, 1] rfl (by decide) (by decide)

/-! ## The reader never moves backwards -/

theorem readFull_length_le (n : Nat) (r : Reader) : (readFull n r).2.length ≤ r.length := by
  unfold readFull
  split
  · exact Nat.le_refl _
  · split
    · exact Nat.le_refl _
    · split
      · simp
      · simp

/-- A read of at least one byte moves the reader forward, unless there is nothing left, in which
case it fails with `io.EOF`. -/
theorem readFull_progress (n : Nat) (r : Reader) (hn : n ≠ 0) :
    (readFull n r).2.length < r.length ∨ readFull n r = (.error Error.EOF, r) := by
  unfold readFull
  rw [if_neg hn]
  by_cases hr : r = []
  · right; simp [hr]
  · left
    have hpos : 0 < r.length := List.length_pos.mpr hr
    rw [if_neg hr]
    split
    · simpa using hpos
    · simp; omega

theorem unpackDate_length_le (r : Reader) : (unpackDate r).2.length ≤ r.length := by
  unfold unpackDate
  split
  · next e r1 h8 =>
    have := readFull_length_le 8 r
    rw [h8] at this; exact this
  · next date r1 h8 =>
    have l8 := readFull_length_le 8 r
    rw [h8] at l8
    split
    · next e r2 h4 =>
      have l4 := readFull_length_le 4 r1
      rw [h4] at l4
      exact Nat.le_trans l4 l8
    · next time r2 h4 =>
      have l4 := readFull_length_le 4 r1
      rw [h4] at l4
      split
      · next e r3 h1 =>
        have l1 := readFull_length_le 1 r2
        rw [h1] at l1
        exact Nat.le_trans l1 (Nat.le_trans l4 l8)
      · next x r3 h1 =>
        have l1 := readFull_length_le 1 r2
        rw [h1] at l1
        exact Nat.le_trans l1 (Nat.le_trans l4 l8)

theorem unpackHeader_length_le (r : Reader) : (unpackHeader r).2.length ≤ r.length := by
  unfold unpackHeader
  split
  · next e r1 ha =>
    have := readFull_length_le 4 r
    rw [ha] at this; exact this
  · next a r1 ha =>
    have la := readFull_length_le 4 r
    rw [ha] at la
    split
    · next e r2 hb =>
      have lb := readFull_length_le 4 r1
      rw [hb] at lb
      exact Nat.le_trans lb la
    · next b r2 hb =>
      have lb := readFull_length_le 4 r1
      rw [hb] at lb
      split
      · next e r3 hc =>
        have lc := readFull_length_le 4 r2
        rw [hc] at lc
        exact Nat.le_trans lc (Nat.le_trans lb la)
      · next c r3 hc =>
        have lc := readFull_length_le 4 r2
        rw [hc] at lc
        split
        · next e r4 hd =>
          have ld := readFull_length_le 4 r3
          rw [hd] at ld
          exact Nat.le_trans ld (Nat.le_trans lc (Nat.le_trans lb la))
        · next d r4 hd =>
          have ld := readFull_length_le 4 r3
          rw [hd] at ld
          exact Nat.le_trans ld (Nat.le_trans lc (Nat.le_trans lb la))

theorem parseElems_length_le (f : Reader → Go Parsed)
    (hf : ∀ r p, f r = Go.ret p → p.rest.length ≤ r.length) :
    ∀ (n : Nat) (r : Reader) (vs : List Value) (r1 : Reader),
      parseElems f n r = Go.ret (vs, r1) → r1.length ≤ r.length := by
  intro n
  induction n with
  | zero =>
    intro r vs r1 h
    simp [parseElems] at h
    rw [h.2]
  | succ n ih =>
    intro r vs r1 h
    simp only [parseElems] at h
    rcases hfr : f r with p | m
    · rw [hfr] at h
      simp only at h
      rcases hrec : parseElems f n p.rest with ⟨ws, r2⟩ | m
      · rw [hrec] at h
        simp only at h
        injection h with h
        injection h with _ h2
        have := ih _ _ _ hrec
        have := hf _ _ hfr
        rw [← h2]; omega
      · rw [hrec] at h; cases h
    · rw [hfr] at h; cases h

theorem readFull_length_lt (n : Nat) (r : Reader) (hn : n ≠ 0) (hr : r ≠ []) :
    (readFull n r).2.length < r.length := by
  rcases readFull_progress n r hn with h | h
  · exact h
  · exfalso
    unfold readFull at h
    rw [if_neg hn, if_neg hr] at h
    split at h
    · injection h with _ h2
      exact hr h2.symm
    · injection h with h1 _
      cases h1

theorem unpackDate_length_lt (r : Reader) (hr : r ≠ []) :
    (unpackDate r).2.length < r.length := by
  have l8 := readFull_length_lt 8 r (by decide) hr
  unfold unpackDate
  split
  · next e r1 h8 =>
    rw [h8] at l8; exact l8
  · next date r1 h8 =>
    rw [h8] at l8
    split
    · next e r2 h4 =>
      have l4 := readFull_length_le 4 r1
      rw [h4] at l4
      exact Nat.lt_of_le_of_lt l4 l8
    · next time r2 h4 =>
      have l4 := readFull_length_le 4 r1
      rw [h4] at l4
      split
      · next e r3 h1 =>
        have l1 := readFull_length_le 1 r2
        rw [h1] at l1
        exact Nat.lt_of_le_of_lt (Nat.le_trans l1 l4) l8
      · next x r3 h1 =>
        have l1 := readFull_length_le 1 r2
        rw [h1] at l1
        exact Nat.lt_of_le_of_lt (Nat.le_trans l1 l4) l8

/-- A length-prefixed read (`[]byte` and `string` cases) on a reader that is not at its end
leaves it strictly further. -/
theorem prefixed_length_lt (r : Reader) (hr : r ≠ []) :
    (readFull 4 r).2.length < r.length ∧
    ∀ l r1, readFull 4 r = (.ok l, r1) → ∀ n, (readFull n r1).2.length < r.length := by
  have l4 := readFull_length_lt 4 r (by decide) hr
  refine ⟨l4, ?_⟩
  intro l r1 h n
  rw [h] at l4
  exact Nat.lt_of_le_of_lt (readFull_length_le n r1) l4

mutual
/-- Every call of `parseField` that returns either leaves the reader strictly further, or
leaves it where it was with the field at its zero value. -/
theorem parseField_progress (E : Env) (s : Schema) (r : Reader) (p : Parsed)
    (h : parseField E s r = Go.ret p) :
    p.rest.length < r.length ∨ (p.rest = r ∧ p.val = zeroValue s) := by
  by_cases hr : r = []
  · subst hr
    obtain ⟨err, h0⟩ := parseField_nil E s
    rw [h0] at h
    injection h with h
    right
    rw [← h]
    exact ⟨rfl, rfl⟩
  · cases s with
    | time =>
      left
      have hl := unpackDate_length_lt r hr
      simp only [parseField] at h
      split at h
      · next err r1 hu =>
        rw [hu] at hl
        injection h with h
        rw [← h]; exact hl
      · next date time x r1 hu =>
        rw [hu] at hl
        injection h with h
        rw [← h]; exact hl
    | struct fs =>
      simp only [parseField] at h
      split at h
      · cases h
      · next vs r1 hf =>
        injection h with h
        rw [← h]
        rcases parseFields_progress E fs r vs r1 hf with hlt | ⟨h1, h2⟩
        · left; exact hlt
        · right
          refine ⟨h1, ?_⟩
          simp only [zeroValue, h2]
    | slice elem =>
      left
      obtain ⟨l4, lrest⟩ := prefixed_length_lt r hr
      simp only [parseField, unpack] at h
      split at h
      · split at h
        · next err r1 hu =>
          rw [hu] at l4
          injection h with h
          rw [← h]; exact l4
        · next l r1 hu =>
          rw [hu] at l4
          split at h
          · injection h with h
            rw [← h]; exact l4
          · have l2 := lrest l r1 hu (int32 l).toNat
            split at h
            · next err r2 hu2 =>
              rw [hu2] at l2
              injection h with h
              rw [← h]; exact l2
            · next b r2 hu2 =>
              rw [hu2] at l2
              injection h with h
              rw [← h]; exact l2
      · split at h
        · next err r1 hu =>
          rw [hu] at l4
          injection h with h
          rw [← h]; exact l4
        · next l r1 hu =>
          rw [hu] at l4
          split at h
          · cases h
          · split at h
            · cases h
            · next vs r2 he =>
              injection h with h
              rw [← h]
              have hle := parseElems_length_le (fun x => parseField E elem x)
                (fun r0 p0 h0 => by
                  rcases parseField_progress E elem r0 p0 h0 with hlt | ⟨heq, _⟩
                  · exact Nat.le_of_lt hlt
                  · rw [heq])
                _ _ _ _ he
              exact Nat.lt_of_le_of_lt hle l4
    | string =>
      left
      obtain ⟨l4, lrest⟩ := prefixed_length_lt r hr
      simp only [parseField, unpack] at h
      split at h
      · next err r1 hu =>
        rw [hu] at l4
        injection h with h
        rw [← h]; exact l4
      · next l r1 hu =>
        rw [hu] at l4
        split at h
        · injection h with h
          rw [← h]; exact l4
        · have l2 := lrest l r1 hu (int32 l).toNat
          split at h
          · next err r2 hu2 =>
            rw [hu2] at l2
            injection h with h
            rw [← h]; exact l2
          · next b r2 hu2 =>
            rw [hu2] at l2
            injection h with h
            rw [← h]; exact l2
    | prim size signed =>
      by_cases hs : size = 0
      · subst hs
        right
        have h0 : parseField E (Schema.prim 0 signed) r = Go.ret ⟨none, Value.int 0, r⟩ := by
          cases signed <;>
            simp [parseField, unpack, readFull, primValue, bigEndian, toSigned]
        rw [h0] at h
        injection h with h
        rw [← h]
        exact ⟨rfl, rfl⟩
      · left
        have hl := readFull_length_lt size r hs hr
        simp only [parseField, unpack] at h
        split at h
        · next err r1 hu =>
          rw [hu] at hl
          injection h with h
          rw [← h]; exact hl
        · next bs r1 hu =>
          rw [hu] at hl
          injection h with h
          rw [← h]; exact hl
theorem parseFields_progress (E : Env) (fs : List (String × Schema)) (r : Reader)
    (vs : List (String × Value)) (r1 : Reader) (h : parseFields E fs r = Go.ret (vs, r1)) :
    r1.length < r.length ∨ (r1 = r ∧ vs = zeroFields fs) := by
  cases fs with
  | nil =>
    simp only [parseFields] at h
    injection h with h
    injection h with h1 h2
    right
    exact ⟨h2.symm, by rw [← h1]; rfl⟩
  | cons f fs =>
    obtain ⟨name, s⟩ := f
    simp only [parseFields] at h
    split at h
    · cases h
    · next p hp =>
      split at h
      · cases h
      · next ws r2 hws =>
        injection h with h
        injection h with h1 h2
        subst h2
        have ih1 := parseField_progress E s r p hp
        have ih2 := parseFields_progress E fs p.rest ws r2 hws
        rcases ih1 with a | ⟨a1, a2⟩
        · left
          rcases ih2 with b | ⟨b1, _⟩
          · omega
          · rw [b1]; exact a
        · rcases ih2 with b | ⟨b1, b2⟩
          · left; rw [← a1]; exact b
          · right
            refine ⟨by rw [b1, a1], ?_⟩
            rw [← h1, a2, b2]
            rfl
end

theorem parseField_length_le (E : Env) (s : Schema) (r : Reader) (p : Parsed)
    (h : parseField E s r = Go.ret p) : p.rest.length ≤ r.length := by
  rcases parseField_progress E s r p h with hlt | ⟨heq, _⟩
  · exact Nat.le_of_lt hlt
  · rw [heq]

mutual
/-- On a type without a slice of elements other than bytes `parseField` returns. -/
theorem parseField_noList (E : Env) (s : Schema) (r : Reader) (h : s.noList = true) :
    ∃ p, parseField E s r = Go.ret p := by
  cases s with
  | time =>
    simp only [parseField]
    split <;> exact ⟨_, rfl⟩
  | struct fs =>
    simp only [Schema.noList] at h
    obtain ⟨vs, r1, hf⟩ := parseFields_noList E fs r h
    exact ⟨⟨none, Value.struct vs, r1⟩, by simp only [parseField, hf]⟩
  | slice elem =>
    simp only [Schema.noList] at h
    simp only [parseField, h, if_true]
    split
    · exact ⟨_, rfl⟩
    · split
      · exact ⟨_, rfl⟩
      · split <;> exact ⟨_, rfl⟩
  | string =>
    simp only [parseField]
    split
    · exact ⟨_, rfl⟩
    · split
      · exact ⟨_, rfl⟩
      · split <;> exact ⟨_, rfl⟩
  | prim size signed =>
    simp only [parseField]
    split <;> exact ⟨_, rfl⟩
theorem parseFields_noList (E : Env) (fs : List (String × Schema)) (r : Reader)
    (h : noListFields fs = true) :
    ∃ vs r1, parseFields E fs r = Go.ret (vs, r1) := by
  cases fs with
  | nil => exact ⟨_, _, rfl⟩
  | cons f fs =>
    obtain ⟨name, s⟩ := f
    simp only [noListFields, Bool.and_eq_true] at h
    obtain ⟨p, hp⟩ := parseField_noList E s r h.1
    obtain ⟨vs, r1, hf⟩ := parseFields_noList E fs p.rest h.2
    exact ⟨(name, p.val) :: vs, r1, by simp only [parseFields, hp, hf]⟩
end

/-! ## Termination of the two loops -/

/-- The `Locations` loop stops within as many iterations as there are bytes left, plus one.
It returns a nil error, and at most one `Location` per byte; it returns (no panic) when
`Location` has no slice of elements other than bytes.  The hypothesis `hzero` says that
`Location` declares the fields the end mark test reads. -/
theorem locationsLoop_total (E : Env)
    (hzero : isEndmark (zeroValue (Schema.struct E.Location)) = true) :
    ∀ (fuel : Nat) (r : Reader) (acc : List Value), r.length < fuel →
      ∃ out, locationsLoop E fuel r acc = some out ∧
        (∀ ls err, out = Go.ret (ls, err) →
          err = none ∧ ls.length ≤ acc.length + r.length) ∧
        (noListFields E.Location = true → ∃ ls, out = Go.ret (ls, none)) := by
  intro fuel
  induction fuel with
  | zero => intro r acc h; exact absurd h (Nat.not_lt_zero _)
  | succ k ih =>
    intro r acc hlt
    simp only [locationsLoop]
    rcases hp : parseField E (Schema.struct E.Location) r with p | m
    · have herr := parseField_struct_err E _ r p hp
      simp only [herr]
      by_cases hend : isEndmark p.val = true
      · refine ⟨Go.ret (acc, none), by simp [hend], ?_, fun _ => ⟨acc, rfl⟩⟩
        intro ls err h
        injection h with h
        injection h with h1 h2
        exact ⟨h2.symm, by rw [← h1]; omega⟩
      · have hprog : p.rest.length < r.length := by
          rcases parseField_progress E _ r p hp with h1 | ⟨_, h2⟩
          · exact h1
          · rw [h2, hzero] at hend
            exact absurd rfl hend
        obtain ⟨out, hout, hb, hn⟩ := ih p.rest (acc ++ [p.val]) (by omega)
        refine ⟨out, by simp [hend, hout], ?_, hn⟩
        intro ls err h
        obtain ⟨e1, e2⟩ := hb ls err h
        refine ⟨e1, ?_⟩
        simp at e2
        omega
    · refine ⟨Go.panic m, by simp, ?_, ?_⟩
      · intro ls err h; cases h
      · intro hnl
        obtain ⟨p, hp2⟩ := parseField_noList E (Schema.struct E.Location) r
          (by simpa [Schema.noList] using hnl)
        rw [hp2] at hp
        cases hp

theorem GoBytes.length_bytes (data : GoBytes) : data.bytes.length = data.len := by
  simp [GoBytes.bytes, data.le]

/-- C17: the `Locations` loop of `ParseCache` terminates on every buffer.  Every iteration
either leaves the reader strictly further or decodes a `Location` that passes the end mark
test, on which the loop stops; so the call comes to an end (it returns, or a panic of
`parseField` ends it), and when it returns the value is a `Locations` with at most as many
entries as there are bytes after the four bytes of `FullLen`.  The hypothesis `hzero` says that
`Location` declares the fields the end mark test reads. -/
theorem ParseCache_locations_terminates (E : Env) (keytype : Nat) (data : GoBytes)
    (hkey : E.LSK keytype = some LskType.Locations)
    (hzero : isEndmark (zeroValue (Schema.struct E.Location)) = true) :
    (∀ (r : Reader) (p : Parsed), parseField E (Schema.struct E.Location) r = Go.ret p →
      p.rest.length < r.length ∨ isEndmark p.val = true) ∧
    ∃ out, ParseCache E data keytype = some out ∧
      ∀ res err, out = Go.ret (res, err) →
        ∃ fullLen ls, res = CacheResult.locations fullLen ls ∧ ls.length ≤ data.len - 4 := by
  constructor
  · intro r p hp
    rcases parseField_progress E _ r p hp with h | ⟨_, h⟩
    · exact Or.inl h
    · right; rw [h]; exact hzero
  · unfold ParseCache
    simp only [hkey]
    by_cases h4 : 4 ≤ data.len
    · have hlen := GoBytes.length_bytes data
      rw [readFull_ok 4 data.bytes (by omega)]
      simp only
      obtain ⟨out, hout, hb, _⟩ := locationsLoop_total E hzero
        ((data.bytes.drop 4).length + 1) (data.bytes.drop 4) [] (Nat.lt_succ_self _)
      rw [hout]
      rcases out with ⟨ls, err⟩ | m
      · refine ⟨_, rfl, ?_⟩
        intro res err2 h
        injection h with h
        injection h with h1 _
        refine ⟨_, ls, h1.symm, ?_⟩
        have := (hb ls err rfl).2
        simp at this
        omega
      · refine ⟨_, rfl, ?_⟩
        intro res err2 h
        cases h
    · have hlen := GoBytes.length_bytes data
      rw [readFull_short 4 data.bytes (by omega)]
      refine ⟨_, rfl, ?_⟩
      intro res err h
      injection h with h
      injection h with h1 _
      exact ⟨0, [], h1.symm, Nat.zero_le _⟩

/-- Witness of C17 on the sample `Location` type and a buffer cut inside a record. -/
theorem ParseCache_locations_terminates_witness :
    (∀ (r : Reader) (p : Parsed),
      parseField sampleEnv (Schema.struct sampleEnv.Location) r = Go.ret p →
      p.rest.length < r.length ∨ isEndmark p.val = true) ∧
    ∃ out, ParseCache sampleEnv (GoBytes.ofList [8, 0, 0, 0, 0, 0, 0, 1, 0, 0]) 4 = some out ∧
      ∀ res err, out = Go.ret (res, err) →
        ∃ fullLen ls, res = CacheResult.locations fullLen ls ∧
          ls.length ≤ (GoBytes.ofList [8, 0, 0, 0, 0, 0, 0, 1, 0, 0]).len - 4 :=
  ParseCache_locations_terminates sampleEnv 4 (GoBytes.ofList [8, 0, 0, 0, 0, 0, 0, 1, 0, 0])
    rfl rfl

/-- C18: `ParseCache` with the `Locations` key type returns, and the error it returns is
non-nil exactly when the buffer has fewer than four bytes; a buffer of four bytes or more,
wherever it ends, gives a nil error.  The hypotheses say that `Location` declares the fields
the end mark test reads and has no slice of elements other than bytes. -/
theorem ParseCache_locations_error_iff (E : Env) (keytype : Nat) (data : GoBytes)
    (hkey : E.LSK keytype = some LskType.Locations)
    (hzero : isEndmark (zeroValue (Schema.struct E.Location)) = true)
    (hlist : noListFields E.Location = true) :
    ∃ res err, ParseCache E data keytype = some (Go.ret (res, err)) ∧
      (err ≠ none ↔ data.len < 4) := by
  have hlen := GoBytes.length_bytes data
  unfold ParseCache
  simp only [hkey]
  by_cases h4 : 4 ≤ data.len
  · rw [readFull_ok 4 data.bytes (by omega)]
    simp only
    obtain ⟨out, hout, hb, hn⟩ := locationsLoop_total E hzero
      ((data.bytes.drop 4).length + 1) (data.bytes.drop 4) [] (Nat.lt_succ_self _)
    obtain ⟨ls, hls⟩ := hn hlist
    rw [hout, hls]
    refine ⟨_, none, rfl, ?_⟩
    constructor
    · intro h; exact absurd rfl h
    · intro h; omega
  · rw [readFull_short 4 data.bytes (by omega)]
    refine ⟨_, _, rfl, ?_⟩
    constructor
    · intro _; omega
    · intro _ h; simp [errorsWrap] at h

/-- Witness of C18 on a buffer that ends inside the file name of its record. -/
theorem ParseCache_locations_error_iff_witness :
    ∃ res err,
      ParseCache sampleEnv
        (GoBytes.ofList
          [26, 0, 0, 0,
           0, 0, 0, 1, 0, 0, 0, 2, 0, 0, 0, 0, 0, 0, 0, 3,
           0, 0, 0, 10, 0, 97]) 4 = some (Go.ret (res, err)) ∧
      (err ≠ none ↔
        (GoBytes.ofList
          [26, 0, 0, 0,
           0, 0, 0, 1, 0, 0, 0, 2, 0, 0, 0, 0, 0, 0, 0, 3,
           0, 0, 0, 10, 0, 97]).len < 4) :=
  ParseCache_locations_error_iff sampleEnv 4 _ rfl rfl rfl

theorem parseConnectionType_length_le (r : Reader) :
    (parseConnectionType r).2.length ≤ r.length := by
  have l4 := readFull_length_le 4 r
  unfold parseConnectionType
  simp only [unpack]
  split
  · next err r1 hu =>
    rw [hu] at l4; exact l4
  · next t r1 hu =>
    rw [hu] at l4
    have lh := unpackHeader_length_le r1
    split
    · split
      · next err r2 hh =>
        rw [hh] at lh
        exact Nat.le_trans lh l4
      · next header r2 hh =>
        rw [hh] at lh
        have : r2.length ≤ r.length := Nat.le_trans lh l4
        split
        · exact this
        · split
          · exact this
          · split <;> exact this
    · exact l4

theorem parseUserSetting_length_le (E : Env) (r : Reader) (blockID : Nat) (res : SettingResult)
    (h : parseUserSetting E r blockID = Go.ret res) : res.rest.length ≤ r.length := by
  unfold parseUserSetting at h
  split at h
  · injection h with h
    rw [← h]
  · split at h
    · have lc := parseConnectionType_length_le r
      split at h
      · next v err r1 hc =>
        rw [hc] at lc
        injection h with h
        rw [← h]; exact lc
      · next v r1 hc =>
        rw [hc] at lc
        injection h with h
        rw [← h]; exact lc
    · split at h
      · cases h
      · next s hs =>
        split at h
        · cases h
        · next p hp =>
          have lp := parseField_length_le E s r p hp
          split at h
          · injection h with h
            rw [← h]; exact lp
          · injection h with h
            rw [← h]; exact lp

/-- The `UserSettings` loop stops within as many iterations as there are bytes left, plus
one. -/
theorem settingsLoop_total (E : Env) :
    ∀ (fuel : Nat) (r : Reader) (acc : List Setting), r.length < fuel →
      ∃ out, settingsLoop E fuel r acc = some out := by
  intro fuel
  induction fuel with
  | zero => intro r acc h; exact absurd h (Nat.not_lt_zero _)
  | succ k ih =>
    intro r acc hlt
    simp only [settingsLoop, unpack]
    split
    · split <;> exact ⟨_, rfl⟩
    · next blockID r1 hu =>
      have hr : r ≠ [] := by
        intro h0
        subst h0
        simp [readFull] at hu
      have l4 := readFull_length_lt 4 r (by decide) hr
      rw [hu] at l4
      split
      · exact ⟨_, rfl⟩
      · next res hres =>
        have lr := parseUserSetting_length_le E r1 _ res hres
        split
        · exact ⟨_, rfl⟩
        · exact ih res.rest _ (by simp at l4; omega)

/-- The `UserSettings` case on a buffer whose declared `FullLen` is `L`, with
`4 ≤ L ≤ len(data)`: the outcome is a function of the first `L` bytes. -/
theorem ParseCache_userSettings_region (E : Env) (keytype : Nat) (data : GoBytes) (L : Nat)
    (hkey : E.LSK keytype = some LskType.UserSettings)
    (h4 : 4 ≤ L) (hL : L ≤ data.len)
    (hdecl : littleEndian (data.bytes.take 4) = L) :
    ParseCache E data keytype =
      match settingsLoop E (((data.bytes.take L).drop 4).length + 1)
          ((data.bytes.take L).drop 4) [] with
      | none => none
      | some (Go.panic m) => some (Go.panic m)
      | some (Go.ret (settings, err)) =>
        some (Go.ret (CacheResult.userSettings (4 + ((data.bytes.take L).drop 4).length)
          settings, err)) := by
  have hlen := GoBytes.length_bytes data
  have hsplit : data.bytes =
      data.bytes.take 4 ++ ((data.bytes.take L).drop 4 ++ data.bytes.drop L) := by
    have e1 : data.bytes.take 4 = (data.bytes.take L).take 4 := by
      rw [List.take_take, Nat.min_eq_left h4]
    rw [e1, ← List.append_assoc, List.take_append_drop, List.take_append_drop]
  have hbody : ((data.bytes.take L).drop 4).length = L - 4 := by
    simp [hlen, Nat.min_eq_left hL]
  exact ParseCache_userSettings_body E keytype data (data.bytes.take 4)
    ((data.bytes.take L).drop 4) (data.bytes.drop L) hkey
    (by simp [hlen]; omega) hsplit (by rw [hdecl, hbody]; omega)

/-- C12: two settings buffers that agree on their first `L` bytes, `L` being the `FullLen`
declared in the first four bytes and `4 ≤ L` at most the length of each, give the same outcome
of `ParseCache` with the `UserSettings` key type, value and error alike (and the call does
come to an end): the bytes after `L` are not read. -/
theorem ParseCache_userSettings_prefix (E : Env) (keytype : Nat) (data1 data2 : GoBytes)
    (L : Nat) (hkey : E.LSK keytype = some LskType.UserSettings)
    (h4 : 4 ≤ L) (hL1 : L ≤ data1.len) (hL2 : L ≤ data2.len)
    (hdecl : littleEndian (data1.bytes.take 4) = L)
    (hagree : data1.bytes.take L = data2.bytes.take L) :
    ∃ out, ParseCache E data1 keytype = some out ∧ ParseCache E data2 keytype = some out := by
  have hdecl2 : littleEndian (data2.bytes.take 4) = L := by
    have e1 : data1.bytes.take 4 = (data1.bytes.take L).take 4 := by
      rw [List.take_take, Nat.min_eq_left h4]
    have e2 : data2.bytes.take 4 = (data2.bytes.take L).take 4 := by
      rw [List.take_take, Nat.min_eq_left h4]
    rw [e2, ← hagree, ← e1]; exact hdecl
  rw [ParseCache_userSettings_region E keytype data1 L hkey h4 hL1 hdecl,
    ParseCache_userSettings_region E keytype data2 L hkey h4 hL2 hdecl2, ← hagree]
  obtain ⟨out, hout⟩ := settingsLoop_total E (((data1.bytes.take L).drop 4).length + 1)
    ((data1.bytes.take L).drop 4) [] (Nat.lt_succ_self _)
  rw [hout]
  rcases out with ⟨settings, err⟩ | m
  · exact ⟨_, rfl, rfl⟩
  · exact ⟨_, rfl, rfl⟩

/-- Witness of C12: two buffers with `FullLen` 12 that differ after their twelfth byte. -/
theorem ParseCache_userSettings_prefix_witness :
    ∃ out,
      ParseCache sampleEnv
        (GoBytes.ofList [12, 0, 0, 0, 0, 0, 0, 6, 0, 0, 0, 42, 1, 2, 3]) 9 = some out ∧
      ParseCache sampleEnv
        (GoBytes.ofList [12, 0, 0, 0, 0, 0, 0, 6, 0, 0, 0, 42, 255, 255, 255, 255, 9]) 9 =
          some out :=
  ParseCache_userSettings_prefix sampleEnv 9 _ _ 12 rfl (by decide) (by decide) (by decide)
    rfl rfl

/-! ## The slice expression `data[4:result.FullLen]` -/

/-- On a settings buffer of at least four bytes whose declared `FullLen` is smaller than 4 or
larger than the capacity of the buffer, `ParseCache` panics in the slice expression. -/
theorem ParseCache_userSettings_out_of_range (E : Env) (keytype : Nat) (data : GoBytes)
    (hkey : E.LSK keytype = some LskType.UserSettings) (h4 : 4 ≤ data.len)
    (hrange : littleEndian (data.bytes.take 4) < 4 ∨ data.cap < littleEndian (data.bytes.take 4)) :
    ParseCache E data keytype = some (Go.panic "runtime error: slice bounds out of range") := by
  have hlen := GoBytes.length_bytes data
  unfold ParseCache
  simp only [hkey]
  rw [readFull_ok 4 data.bytes (by omega)]
  simp only
  rw [if_neg (by omega)]

/-- C14 fails on the code: on the four-byte settings buffer `00 00 00 00`, whose declared
`FullLen` is 0, and on a twelve-byte buffer whose declared `FullLen` is 13, `ParseCache` with
the `UserSettings` key type does not return an error: the slice expression
`data[4:result.FullLen]` panics and the call is aborted. -/
theorem ParseCache_userSettings_slice_panic :
    ParseCache sampleEnv (GoBytes.ofList [0, 0, 0, 0]) 9 =
      some (Go.panic "runtime error: slice bounds out of range") ∧
    ParseCache sampleEnv (GoBytes.ofList [13, 0, 0, 0, 0, 0, 0, 6, 0, 0, 0, 42]) 9 =
      some (Go.panic "runtime error: slice bounds out of range") ∧
    ∀ res err, ParseCache sampleEnv (GoBytes.ofList [0, 0, 0, 0]) 9 ≠
      some (Go.ret (res, err)) := by
  refine ⟨rfl, rfl, ?_⟩
  intro res err h
  have h0 : ParseCache sampleEnv (GoBytes.ofList [0, 0, 0, 0]) 9 =
      some (Go.panic "runtime error: slice bounds out of range") := rfl
  rw [h0] at h
  injection h with h
  cases h

/-! ## Byte order -/

theorem bigEndian_four (b0 b1 b2 b3 : Byte) :
    bigEndian [b0, b1, b2, b3] = 16777216 * b0.val + 65536 * b1.val + 256 * b2.val + b3.val := by
  simp only [bigEndian, List.foldl]
  omega

theorem parseElems_nil (f : Reader → Go Parsed) (v : Value) (err : Option Error)
    (hf : f [] = Go.ret ⟨err, v, []⟩) :
    ∀ n : Nat, parseElems f n [] = Go.ret (List.replicate n v, []) := by
  intro n
  induction n with
  | zero => rfl
  | succ n ih => simp [parseElems, hf, ih, List.replicate]

theorem parseField_list_eq (E : Env) (elem : Schema) (r : Reader)
    (h : elem.isUint8 = false) :
    parseField E (Schema.slice elem) r =
      match unpack 4 r with
      | (.error err, r1) => Go.ret ⟨some err, Value.nil, r1⟩
      | (.ok l, r1) =>
        if int32 l < 0 then Go.panic "reflect.MakeSlice: negative len"
        else
          match parseElems (fun x => parseField E elem x) (int32 l).toNat r1 with
          | Go.panic m => Go.panic m
          | Go.ret (vs, r2) => Go.ret ⟨none, Value.slice vs, r2⟩ := by
  rw [parseField, if_neg (by simp [h])]

/-- C13, as stated, fails: the four bytes `2a 00 00 00`, which are 42 in little-endian order,
are read by `parseField` as the scalar 704643072; the bytes `02 00 00 00` before two bytes of
text are read as the length 33554432, for which the text is too short; and a settings buffer
whose block identifier 6 and value 42 are written in little-endian order fails on the block
identifier `0x06000000`. -/
theorem fixed_width_little_endian_counterexample :
    parseField sampleEnv (Schema.prim 4 false) [42, 0, 0, 0] =
      Go.ret ⟨none, Value.int 704643072, []⟩ ∧
    parseField sampleEnv Schema.string [2, 0, 0, 0, 0, 65] =
      Go.ret ⟨some Error.ErrUnexpectedEOF, Value.string "", []⟩ ∧
    ParseCache sampleEnv (GoBytes.ofList [12, 0, 0, 0, 6, 0, 0, 0, 42, 0, 0, 0]) 9 =
      some (Go.ret (CacheResult.userSettings 12 [],
        some (Error.wrap (Error.blockIDNotFound 100663296)))) ∧
    parseField sampleEnv (Schema.prim 4 false) [42, 0, 0, 0] ≠
      Go.ret ⟨none, Value.int (42 + 256 * 0 + 65536 * 0 + 16777216 * 0), []⟩ := by
  refine ⟨rfl, rfl, rfl, ?_⟩
  intro h
  have h0 : parseField sampleEnv (Schema.prim 4 false) [42, 0, 0, 0] =
      Go.ret ⟨none, Value.int 704643072, []⟩ := rfl
  rw [h0] at h
  injection h with h
  injection h with _ h _
  injection h with h
  exact absurd h (by decide)

/-- C13, amended: every fixed-width integer that the field decoder reads from the reader is
taken most significant byte first.  For four bytes `b0 b1 b2 b3` and
`v = 16777216 * b0 + 65536 * b1 + 256 * b2 + b3`: an unsigned 32-bit scalar field is `v` and a
signed one is `v` in two's complement; the length prefix of a text, of a byte array and of a
list is `v` in two's complement (shown on the prefix alone, with nothing after it); the block
identifier of a settings entry is `v`; the connection type tag and the four fields of the
header are `v` in two's complement. -/
theorem fixed_width_big_endian (E : Env) (b0 b1 b2 b3 : Byte) (rest : List Byte) :
    parseField E (Schema.prim 4 false) (b0 :: b1 :: b2 :: b3 :: rest) =
      Go.ret ⟨none,
        Value.int ((16777216 * b0.val + 65536 * b1.val + 256 * b2.val + b3.val : Nat) : Int),
        rest⟩ ∧
    parseField E (Schema.prim 4 true) (b0 :: b1 :: b2 :: b3 :: rest) =
      Go.ret ⟨none,
        Value.int (toSigned 32 (16777216 * b0.val + 65536 * b1.val + 256 * b2.val + b3.val)),
        rest⟩ ∧
    parseField E Schema.string [b0, b1, b2, b3] =
      (if toSigned 32 (16777216 * b0.val + 65536 * b1.val + 256 * b2.val + b3.val) < 0 then
        Go.ret ⟨none, Value.string "", []⟩
      else if toSigned 32 (16777216 * b0.val + 65536 * b1.val + 256 * b2.val + b3.val) = 0 then
        Go.ret ⟨none, Value.string (E.ConvertUtf16 []), []⟩
      else Go.ret ⟨some Error.EOF, Value.string "", []⟩) ∧
    parseField E Schema.bytes [b0, b1, b2, b3] =
      (if toSigned 32 (16777216 * b0.val + 65536 * b1.val + 256 * b2.val + b3.val) < 0 then
        Go.ret ⟨none, Value.bytes [], []⟩
      else if toSigned 32 (16777216 * b0.val + 65536 * b1.val + 256 * b2.val + b3.val) = 0 then
        Go.ret ⟨none, Value.bytes [], []⟩
      else Go.ret ⟨some Error.EOF, Value.nil, []⟩) ∧
    parseField E (Schema.slice (Schema.prim 4 false)) [b0, b1, b2, b3] =
      (if toSigned 32 (16777216 * b0.val + 65536 * b1.val + 256 * b2.val + b3.val) < 0 then
        Go.panic "reflect.MakeSlice: negative len"
      else
        Go.ret ⟨none, Value.slice (List.replicate
          (toSigned 32 (16777216 * b0.val + 65536 * b1.val + 256 * b2.val + b3.val)).toNat
          (Value.int 0)), []⟩) ∧
    (∀ (fuel : Nat) (acc : List Setting),
      settingsLoop E (fuel + 1) (b0 :: b1 :: b2 :: b3 :: rest) acc =
        match parseUserSetting E rest
            (16777216 * b0.val + 65536 * b1.val + 256 * b2.val + b3.val) with
        | Go.panic m => some (Go.panic m)
        | Go.ret res =>
          match res.err with
          | some err => some (Go.ret (acc, some (Error.wrap err)))
          | none => settingsLoop E fuel res.rest (acc ++ [res.setting])) ∧
    parseConnectionType [b0, b1, b2, b3] =
      (if toSigned 32 (16777216 * b0.val + 65536 * b1.val + 256 * b2.val + b3.val) = 5 then
        ((none, some Error.EOF), [])
      else ((none, none), [])) ∧
    unpackHeader ([b0, b1, b2, b3] ++ ([b0, b1, b2, b3] ++ ([b0, b1, b2, b3] ++
        ([b0, b1, b2, b3] ++ rest)))) =
      (.ok ⟨toSigned 32 (16777216 * b0.val + 65536 * b1.val + 256 * b2.val + b3.val),
            toSigned 32 (16777216 * b0.val + 65536 * b1.val + 256 * b2.val + b3.val),
            toSigned 32 (16777216 * b0.val + 65536 * b1.val + 256 * b2.val + b3.val),
            toSigned 32 (16777216 * b0.val + 65536 * b1.val + 256 * b2.val + b3.val)⟩,
        rest) := by
  have hbe := bigEndian_four b0 b1 b2 b3
  have hrd : ∀ t : List Byte, readFull 4 (b0 :: b1 :: b2 :: b3 :: t) = (.ok [b0, b1, b2, b3], t) :=
    fun t => readFull_append_of_length [b0, b1, b2, b3] t rfl
  have hi : int32 [b0, b1, b2, b3] =
      toSigned 32 (16777216 * b0.val + 65536 * b1.val + 256 * b2.val + b3.val) := by
    rw [int32, hbe]
  refine ⟨?_, ?_, ?_, ?_, ?_, ?_, ?_, ?_⟩
  · simp only [parseField, unpack, hrd, primValue, hbe]
    rfl
  · simp only [parseField, unpack, hrd, primValue, hbe]
    rfl
  · simp only [parseField, unpack, hrd, hi]
    generalize toSigned 32 (16777216 * b0.val + 65536 * b1.val + 256 * b2.val + b3.val) = n
    by_cases hneg : n < 0
    · simp only [hneg, if_true]
    · by_cases h0 : n = 0
      · subst h0
        simp [readFull]
      · have hnz : n.toNat ≠ 0 := by omega
        simp only [hneg, h0, if_false, readFull_nil _ hnz]
  · simp only [parseField, Schema.isUint8, unpack, hrd, hi, if_true]
    generalize toSigned 32 (16777216 * b0.val + 65536 * b1.val + 256 * b2.val + b3.val) = n
    by_cases hneg : n < 0
    · simp only [hneg, if_true]
    · by_cases h0 : n = 0
      · subst h0
        simp [readFull]
      · have hnz : n.toNat ≠ 0 := by omega
        simp only [hneg, h0, if_false, readFull_nil _ hnz]
  · have hf : (fun x => parseField E (Schema.prim 4 false) x) [] =
        Go.ret ⟨some Error.EOF, Value.int 0, []⟩ := rfl
    rw [parseField_list_eq E (Schema.prim 4 false) _ rfl, unpack, hrd]
    simp only [hi]
    by_cases hneg :
        toSigned 32 (16777216 * b0.val + 65536 * b1.val + 256 * b2.val + b3.val) < 0
    · simp only [hneg, if_true]
    · simp only [hneg, if_false]
      rw [parseElems_nil _ _ _ hf]
  · intro fuel acc
    simp only [settingsLoop, unpack, hrd, hbe]
    split
    · rfl
    · next res hres =>
      split
      · next err herr => simp [herr, errorsWrap]
      · next herr => simp [herr]
  · simp only [parseConnectionType, unpack, hrd, hi]
    split
    · rfl
    · rfl
  · simp only [unpackHeader, List.cons_append, List.nil_append, hrd, hi]

end Decrypted
